import Mathlib

set_option maxHeartbeats 1000000

namespace Conscience

/-!
Verification development for the conversational plan-generation backend
(`services/plan_service.py`, `services/websocket_service.py`).

The Python code is shallowly embedded: `PlanService.extract_json` together
with the parts of Python's `json` module it relies on (`json.loads`,
`json.dumps`) are modelled over an explicit `Json` value type; the LangGraph
state machine of `PlanService` is modelled as a fuel-indexed run function over
an oracle supplying the model-call outcomes; `WebsocketService` is modelled
over an association-list registry.  All definitions are structurally
recursive so that concrete runs evaluate inside the kernel.
-/

mutual
/-- JSON values as handled by Python's `json` module, restricted to integer
numerals.  Float literals (fraction/exponent forms, `NaN`, `Infinity`,
`-Infinity`) are kept abstract as their raw source text in `floatRaw`, since
floating point is not modelled.  Objects are association lists in insertion
order (Python dicts preserve insertion order). -/
inductive Json where
  | null : Json
  | bool (b : Bool) : Json
  | num (n : Int) : Json
  | str (s : String) : Json
  | floatRaw (raw : String) : Json
  | arr (elems : JArr) : Json
  | obj (entries : JObj) : Json

/-- A list of JSON values (mutual with `Json` so that every function on JSON
values is structurally recursive). -/
inductive JArr where
  | nil : JArr
  | cons (head : Json) (tail : JArr) : JArr

/-- An association list of string keys and JSON values, in insertion order. -/
inductive JObj where
  | nil : JObj
  | cons (key : String) (value : Json) (tail : JObj) : JObj
end

/-- Decimal digits of `n`, most significant first, with explicit recursion
fuel (any `fuel > n` is enough; mirrors Python's `str(int)` for non-negative
ints). -/
def natDigitsAux : Nat → Nat → List Char
  | 0, _ => []
  | f + 1, n =>
    if n < 10 then [Nat.digitChar n]
    else natDigitsAux f (n / 10) ++ [Nat.digitChar (n % 10)]

/-- Decimal digits of a natural number, most significant first. -/
def natDigits (n : Nat) : List Char := natDigitsAux (n + 1) n

/-- Decimal rendering of an integer (mirrors Python's `str(int)`). -/
def renderInt (n : Int) : List Char :=
  if n < 0 then '-' :: natDigits n.natAbs else natDigits n.toNat

/-- Escape a single character the way Python's `json.dumps` does inside string
literals (with `ensure_ascii=False` for characters above `0x1f`; the claims
never depend on the `\uXXXX`-escaping of non-ASCII text). -/
def encodeChar (c : Char) : List Char :=
  if c = '"' then ['\\', '"']
  else if c = '\\' then ['\\', '\\']
  else if c = '\n' then ['\\', 'n']
  else if c = '\t' then ['\\', 't']
  else if c = '\r' then ['\\', 'r']
  else if c = '\x08' then ['\\', 'b']
  else if c = '\x0c' then ['\\', 'f']
  else if c.toNat < 0x20 then
    ['\\', 'u', '0', '0', Nat.digitChar (c.toNat / 16), Nat.digitChar (c.toNat % 16)]
  else [c]

/-- A JSON string literal, double quotes included. -/
def encodeString (s : String) : List Char :=
  '"' :: (s.data.flatMap encodeChar ++ ['"'])

mutual
/-- Serialization of a `Json` value, mirroring Python's `json.dumps` with its
default separators `", "` and `": "`. -/
def render : Json → List Char
  | .null => "null".data
  | .bool true => "true".data
  | .bool false => "false".data
  | .num n => renderInt n
  | .str s => encodeString s
  | .floatRaw raw => raw.data
  | .arr .nil => "[]".data
  | .arr (.cons x xs) => '[' :: (render x ++ renderArrTail xs) ++ [']']
  | .obj .nil => "{}".data
  | .obj (.cons k v kvs) =>
    '{' :: ((encodeString k ++ ':' :: ' ' :: render v) ++ renderObjTail kvs) ++ ['}']
termination_by structural v => v

/-- `", elem"` groups after the first array element. -/
def renderArrTail : JArr → List Char
  | .nil => []
  | .cons x xs => ',' :: ' ' :: (render x ++ renderArrTail xs)
termination_by structural xs => xs

/-- `", "key": value"` groups after the first object entry. -/
def renderObjTail : JObj → List Char
  | .nil => []
  | .cons k v kvs => ',' :: ' ' :: ((encodeString k ++ ':' :: ' ' :: render v) ++ renderObjTail kvs)
termination_by structural kvs => kvs
end

/-- One `"key": value` group of an object. -/
def renderEntry (k : String) (v : Json) : List Char :=
  encodeString k ++ ':' :: ' ' :: render v

/-- `json.dumps` on the modelled fragment. -/
def dumps (v : Json) : String := String.mk (render v)

/-- The four whitespace characters recognized inside JSON documents. -/
def isJsonWs (c : Char) : Bool := c = ' ' || c = '\t' || c = '\n' || c = '\r'

/-- Skip JSON whitespace. -/
def skipWs (s : List Char) : List Char := s.dropWhile isJsonWs

/-- Value of a hexadecimal digit. -/
def hexVal (c : Char) : Option Nat :=
  if 48 ≤ c.toNat ∧ c.toNat ≤ 57 then some (c.toNat - 48)
  else if 97 ≤ c.toNat ∧ c.toNat ≤ 102 then some (c.toNat - 87)
  else if 65 ≤ c.toNat ∧ c.toNat ≤ 70 then some (c.toNat - 55)
  else none

/-- Body of a JSON string literal, after the opening quote: returns the decoded
characters and the input following the closing quote.  Mirrors CPython's
`py_scanstring` with `strict=True` (raw control characters are rejected);
`\uXXXX` escapes are decoded with UTF-16 surrogate-pair combination, and lone
surrogates are rejected (Lean's `Char` cannot represent them). -/
def parseStringBody : List Char → Option (List Char × List Char)
  | [] => none
  | '"' :: rest => some ([], rest)
  | '\\' :: 'u' :: h1 :: h2 :: h3 :: h4 :: rest => do
    let a ← hexVal h1
    let b ← hexVal h2
    let c ← hexVal h3
    let d ← hexVal h4
    let n := ((a * 16 + b) * 16 + c) * 16 + d
    if 0xd800 ≤ n ∧ n < 0xdc00 then
      match rest with
      | '\\' :: 'u' :: g1 :: g2 :: g3 :: g4 :: rest2 => do
        let a2 ← hexVal g1
        let b2 ← hexVal g2
        let c2 ← hexVal g3
        let d2 ← hexVal g4
        let m := ((a2 * 16 + b2) * 16 + c2) * 16 + d2
        if 0xdc00 ≤ m ∧ m < 0xe000 then
          let p ← parseStringBody rest2
          some (Char.ofNat (0x10000 + (n - 0xd800) * 0x400 + (m - 0xdc00)) :: p.1, p.2)
        else none
      | _ => none
    else if 0xdc00 ≤ n ∧ n < 0xe000 then none
    else do
      let p ← parseStringBody rest
      some (Char.ofNat n :: p.1, p.2)
  | '\\' :: e :: rest =>
    let dec : Option Char :=
      if e = '"' then some '"'
      else if e = '\\' then some '\\'
      else if e = '/' then some '/'
      else if e = 'b' then some '\x08'
      else if e = 'f' then some '\x0c'
      else if e = 'n' then some '\n'
      else if e = 'r' then some '\r'
      else if e = 't' then some '\t'
      else none
    match dec with
    | some d => do
      let p ← parseStringBody rest
      some (d :: p.1, p.2)
    | none => none
  | '\\' :: [] => none
  | c :: rest =>
    if c.toNat < 0x20 then none
    else do
      let p ← parseStringBody rest
      some (c :: p.1, p.2)

/-- Numeric value of a decimal digit character. -/
def digitVal (c : Char) : Nat := c.toNat - 48

/-- Value of a list of decimal digits, most significant first. -/
def digitsToNat (ds : List Char) : Nat := ds.foldl (fun a c => a * 10 + digitVal c) 0

/-- The optional minus sign of a number literal: the matched characters and
the remainder. -/
def numSign (s : List Char) : List Char × List Char :=
  match s with
  | '-' :: r => (['-'], r)
  | _ => ([], s)

/-- The optional fraction part `.digits` of a number literal (matched
characters and remainder); a dot not followed by a digit is not consumed. -/
def numFrac (r : List Char) : List Char × List Char :=
  match r with
  | '.' :: rest =>
    let ds := rest.span Char.isDigit
    if ds.1 = [] then ([], r) else ('.' :: ds.1, ds.2)
  | _ => ([], r)

/-- The optional exponent part `[eE][+-]?digits` of a number literal (matched
characters and remainder); an exponent marker without digits is not
consumed. -/
def numExp (r : List Char) : List Char × List Char :=
  match r with
  | e :: rest =>
    if e = 'e' ∨ e = 'E' then
      let sgn : List Char × List Char :=
        match rest with
        | s2 :: r2 => if s2 = '+' ∨ s2 = '-' then ([s2], r2) else ([], rest)
        | [] => ([], rest)
      let ds := sgn.2.span Char.isDigit
      if ds.1 = [] then ([], r) else (e :: (sgn.1 ++ ds.1), ds.2)
    else ([], r)
  | [] => ([], r)

/-- Number literal at the head of the input, following CPython's `NUMBER_RE`:
an optional minus, an integer part `0` or a nonzero-led digit run, then an
optional fraction `.digits` and an optional exponent.  A bare integer yields
`Json.num`; a fraction or exponent part makes it a float, kept raw. -/
def parseNumber (s : List Char) : Option (Json × List Char) :=
  let sign := numSign s
  match sign.2 with
  | [] => none
  | c :: _ =>
    if c.isDigit then
      let intPart : List Char × List Char :=
        if c = '0' then (['0'], sign.2.tail) else sign.2.span Char.isDigit
      let fracPart := numFrac intPart.2
      let expPart := numExp fracPart.2
      if fracPart.1 = [] ∧ expPart.1 = [] then
        let n : Nat := digitsToNat intPart.1
        some (.num (if sign.1 = [] then (n : Int) else -(n : Int)), intPart.2)
      else
        some (.floatRaw (String.mk (sign.1 ++ intPart.1 ++ fracPart.1 ++ expPart.1)), expPart.2)
    else none

mutual
/-- One JSON value at the head of the input (whitespace already skipped),
mirroring CPython's `_json` scanner.  `fuel` bounds the nesting recursion. -/
def parseVal : Nat → List Char → Option (Json × List Char)
  | 0, _ => none
  | _ + 1, [] => none
  | f + 1, c :: rest =>
    if c = '"' then (parseStringBody rest).map (fun p => (.str (String.mk p.1), p.2))
    else if c = '{' then
      match skipWs rest with
      | '}' :: r2 => some (.obj .nil, r2)
      | r1 => (parseMembers f r1).map (fun p => (.obj p.1, p.2))
    else if c = '[' then
      match skipWs rest with
      | ']' :: r2 => some (.arr .nil, r2)
      | r1 => (parseItems f r1).map (fun p => (.arr p.1, p.2))
    else if (c :: rest).take 4 = "null".data then some (.null, (c :: rest).drop 4)
    else if (c :: rest).take 4 = "true".data then some (.bool true, (c :: rest).drop 4)
    else if (c :: rest).take 5 = "false".data then some (.bool false, (c :: rest).drop 5)
    else if (c :: rest).take 3 = "NaN".data then some (.floatRaw "NaN", (c :: rest).drop 3)
    else if (c :: rest).take 8 = "Infinity".data then
      some (.floatRaw "Infinity", (c :: rest).drop 8)
    else if (c :: rest).take 9 = "-Infinity".data then
      some (.floatRaw "-Infinity", (c :: rest).drop 9)
    else parseNumber (c :: rest)

/-- Elements of a non-empty array, starting at the first element
(whitespace skipped), consuming the closing bracket. -/
def parseItems : Nat → List Char → Option (JArr × List Char)
  | 0, _ => none
  | f + 1, s => do
    let p ← parseVal f s
    match skipWs p.2 with
    | ',' :: r2 => do
      let q ← parseItems f (skipWs r2)
      some (.cons p.1 q.1, q.2)
    | ']' :: r2 => some (.cons p.1 .nil, r2)
    | _ => none

/-- Entries of a non-empty object, starting at the first key
(whitespace skipped), consuming the closing brace. -/
def parseMembers : Nat → List Char → Option (JObj × List Char)
  | 0, _ => none
  | f + 1, s =>
    match s with
    | '"' :: rest => do
      let kp ← parseStringBody rest
      match skipWs kp.2 with
      | ':' :: r2 => do
        let vp ← parseVal f (skipWs r2)
        match skipWs vp.2 with
        | ',' :: r4 => do
          let q ← parseMembers f (skipWs r4)
          some (.cons (String.mk kp.1) vp.1 q.1, q.2)
        | '}' :: r4 => some (.cons (String.mk kp.1) vp.1 .nil, r4)
        | _ => none
      | _ => none
    | _ => none
end

/-- `json.loads` on the modelled fragment: skip surrounding whitespace, parse
one value, and require the input to be exhausted (else Python raises
`Extra data`).  Failure is `none`. -/
def loads (s : List Char) : Option Json :=
  let t := skipWs s
  match parseVal (t.length + 1) t with
  | some (v, r) => if skipWs r = [] then some v else none
  | none => none

/-- Whitespace stripped by Python's `str.strip()` (ASCII fragment). -/
def isPyWs (c : Char) : Bool :=
  c = ' ' || c = '\t' || c = '\n' || c = '\r' || c = '\x0b' || c = '\x0c'

/-- Python's `text.strip()` (ASCII whitespace fragment). -/
def pyStrip (s : List Char) : List Char :=
  ((s.dropWhile isPyWs).reverse.dropWhile isPyWs).reverse

/-- ASCII fragment of the character class matched by `\s` in Python regexes. -/
def isReWs (c : Char) : Bool :=
  c = ' ' || c = '\t' || c = '\n' || c = '\r' || c = '\x0b' || c = '\x0c'

/-- Does the input start with a triple backtick? -/
def startsWithFence : List Char → Bool
  | '`' :: '`' :: '`' :: _ => true
  | _ => false

/-- Index of the first occurrence of a triple backtick. -/
def findFence : List Char → Option Nat
  | [] => none
  | c :: rest => if startsWithFence (c :: rest) then some 0 else (findFence rest).map (· + 1)

/-- Attempt of the code-block regex `(three backticks)(?:json)?\s*\n?(.*?)\n?(three
backticks)` (DOTALL) at a position, given the input just past the opening
fence.  Backtracking preference makes the optional `json` tag and the greedy
`\s*` consume maximally, the lazy capture end at the earliest closing fence,
and the optional `\n` before that fence be eaten when present.  Returns the
captured group and the input past the closing fence. -/
def fenceCapture (s : List Char) : Option (List Char × List Char) :=
  let s1 := if s.take 4 = "json".data then s.drop 4 else s
  let t := s1.dropWhile isReWs
  match findFence t with
  | none => none
  | some q =>
    let cap := t.take q
    some ((if cap.getLast? = some '\n' then cap.dropLast else cap), t.drop (q + 3))

/-- `re.findall` of the markdown code-block pattern: left-to-right scan,
non-overlapping, collecting the captured block interiors.  `fuel` bounds the
scan (any `fuel` at least the input length is enough). -/
def findCodeBlocksAux : Nat → List Char → List (List Char)
  | 0, _ => []
  | _ + 1, [] => []
  | f + 1, c :: rest =>
    if startsWithFence (c :: rest) then
      match fenceCapture (rest.drop 2) with
      | some p => p.1 :: findCodeBlocksAux f p.2
      | none => findCodeBlocksAux f rest
    else findCodeBlocksAux f rest

/-- `re.findall` of the markdown code-block pattern over the whole input. -/
def findCodeBlocks (t : List Char) : List (List Char) := findCodeBlocksAux t.length t

/-- Characters allowed by `[^{}]` (not a brace). -/
def isNonBrace (c : Char) : Bool := c ≠ '{' && c ≠ '}'

/-- Greedy matcher for the tail `[^{}]*(?:\{[^{}]*\}[^{}]*)*\}` of the
depth-two object pattern, starting just past the opening brace.  The star is
deterministic here: an iteration begins exactly when the next brace is `{`,
and a failure inside an iteration cannot be repaired by backtracking (shorter
`[^{}]*` runs would put a non-brace where a brace is required).  Returns the
matched characters (closing brace included) and the remainder.  `fuel` bounds
the iteration count (any `fuel` at least the input length is enough, as every
iteration consumes at least two characters). -/
def matchObjTailAux : Nat → List Char → Option (List Char × List Char)
  | 0, _ => none
  | f + 1, s =>
    match s.dropWhile isNonBrace with
    | '}' :: r => some (s.takeWhile isNonBrace ++ ['}'], r)
    | '{' :: r =>
      match r.dropWhile isNonBrace with
      | '}' :: r2 =>
        (matchObjTailAux f r2).map
          (fun p =>
            (s.takeWhile isNonBrace ++ '{' :: r.takeWhile isNonBrace ++ '}' :: p.1, p.2))
      | _ => none
    | _ => none

/-- The object-pattern matcher with enough fuel for its input. -/
def matchObjTail (s : List Char) : Option (List Char × List Char) :=
  matchObjTailAux (s.length + 1) s

/-- `re.findall` of the depth-two object pattern: left-to-right scan,
non-overlapping, collecting whole matches.  `fuel` bounds the scan. -/
def findObjectsAux : Nat → List Char → List (List Char)
  | 0, _ => []
  | _ + 1, [] => []
  | f + 1, c :: rest =>
    if c = '{' then
      match matchObjTail rest with
      | some p => ('{' :: p.1) :: findObjectsAux f p.2
      | none => findObjectsAux f rest
    else findObjectsAux f rest

/-- `re.findall` of the depth-two object pattern over the whole input. -/
def findObjects (t : List Char) : List (List Char) := findObjectsAux t.length t

/-- The depth-tracking walk of the last-resort step: starting at the first
`{` of the input, accumulate characters while tracking brace depth and stop
at the first character that brings the depth back to zero. -/
def braceSpan (depth : Nat) (acc : List Char) : List Char → Option (List Char)
  | [] => none
  | c :: rest =>
    if c = '{' then braceSpan (depth + 1) (acc ++ [c]) rest
    else if c = '}' then
      if depth = 1 then some (acc ++ [c])
      else braceSpan (depth - 1) (acc ++ [c]) rest
    else braceSpan depth (acc ++ [c]) rest

/-- Is the character not an opening brace? -/
def notOpenBrace (c : Char) : Bool := c ≠ '{'

/-- Last-resort extraction step: `text.find` of the first `{`, the
depth-tracking walk to its matching `}`, and a single parse attempt on that
span (a parse failure breaks out of the loop, yielding nothing). -/
def lastResort (text : List Char) : Option Json :=
  match text.dropWhile notOpenBrace with
  | [] => none
  | s => (braceSpan 0 [] s).bind loads

/-- Python's `json.JSONDecodeError` as raised by `extract_json`: a message,
the document it was raised over (`doc`), and a position. -/
structure JSONDecodeError where
  msg : String
  doc : String
  pos : Nat

/-- `PlanService.extract_json`: the four-step extraction cascade.
1. parse `text.strip()` directly;
2. parse each markdown code-block interior (stripped), first success wins;
3. parse each match of the depth-two object pattern, first success wins;
4. walk from the first `{` to its matching `}` and parse that span once;
if everything fails, raise `json.JSONDecodeError("Could not extract valid
JSON from response", text, 0)`. -/
def extract_json (text : String) : Except JSONDecodeError Json :=
  let t := text.data
  match loads (pyStrip t) with
  | some v => .ok v
  | none =>
    match (findCodeBlocks t).findSome? (fun m => loads (pyStrip m)) with
    | some v => .ok v
    | none =>
      match (findObjects t).findSome? (fun m => loads m) with
      | some v => .ok v
      | none =>
        match lastResort t with
        | some v => .ok v
        | none => .error ⟨"Could not extract valid JSON from response", text, 0⟩

/-- The diagnostic log line emitted just before the final raise:
`logger.error` of `"Failed to extract JSON from response: "` followed by
`text[:500]` and `"..."`. -/
def extractFailureLog (text : String) : String :=
  "Failed to extract JSON from response: " ++ String.mk (text.data.take 500) ++ "..."

/-! ### Round-trip of `loads` over `dumps` output: digit lemmas -/

theorem natDigitsAux_ne_nil {f n : Nat} (h : n < f) : natDigitsAux f n ≠ [] := by
  rcases f with _ | f
  · omega
  · unfold natDigitsAux
    split <;> simp

theorem digitChar_isDigit {d : Nat} (h : d < 10) : (Nat.digitChar d).isDigit = true := by
  interval_cases d <;> decide

theorem digitChar_ne_zero {d : Nat} (h1 : 0 < d) (h2 : d < 10) : Nat.digitChar d ≠ '0' := by
  interval_cases d <;> decide

theorem digitVal_digitChar {d : Nat} (h : d < 10) : digitVal (Nat.digitChar d) = d := by
  interval_cases d <;> decide

theorem natDigitsAux_all_digit :
    ∀ f n, n < f → ∀ c ∈ natDigitsAux f n, c.isDigit = true := by
  intro f
  induction f with
  | zero => omega
  | succ f ih =>
    intro n hn c hc
    unfold natDigitsAux at hc
    split at hc
    case isTrue h10 =>
      simp at hc
      subst hc
      exact digitChar_isDigit h10
    case isFalse h10 =>
      simp at hc
      rcases hc with hc | hc
      · exact ih (n / 10) (by omega) c hc
      · subst hc
        exact digitChar_isDigit (Nat.mod_lt _ (by omega))

theorem natDigitsAux_head_ne_zero :
    ∀ f n, n < f → 0 < n → ∀ c cs, natDigitsAux f n = c :: cs → c ≠ '0' := by
  intro f
  induction f with
  | zero => omega
  | succ f ih =>
    intro n hn hpos c cs hc
    unfold natDigitsAux at hc
    split at hc
    case isTrue h10 =>
      simp at hc
      rw [← hc.1]
      exact digitChar_ne_zero hpos h10
    case isFalse h10 =>
      rcases he : natDigitsAux f (n / 10) with _ | ⟨c2, cs2⟩
      · exact absurd he (natDigitsAux_ne_nil (by omega))
      · rw [he] at hc
        simp at hc
        rw [← hc.1]
        exact ih (n / 10) (by omega) (by omega) c2 cs2 he

theorem digitsToNat_append_singleton (ds : List Char) (d : Char) :
    digitsToNat (ds ++ [d]) = 10 * digitsToNat ds + digitVal d := by
  simp [digitsToNat, List.foldl_append]
  omega

theorem digitsToNat_natDigitsAux :
    ∀ f n, n < f → digitsToNat (natDigitsAux f n) = n := by
  intro f
  induction f with
  | zero => omega
  | succ f ih =>
    intro n hn
    unfold natDigitsAux
    split
    case isTrue h10 =>
      simp [digitsToNat, digitVal_digitChar h10]
    case isFalse h10 =>
      rw [digitsToNat_append_singleton, ih (n / 10) (by omega),
        digitVal_digitChar (Nat.mod_lt _ (by omega))]
      omega

theorem natDigits_ne_nil (n : Nat) : natDigits n ≠ [] :=
  natDigitsAux_ne_nil (Nat.lt_succ_self n)

theorem natDigits_all_digit (n : Nat) : ∀ c ∈ natDigits n, c.isDigit = true :=
  natDigitsAux_all_digit (n + 1) n (Nat.lt_succ_self n)

theorem natDigits_head_ne_zero {n : Nat} (h : 0 < n) :
    ∀ c cs, natDigits n = c :: cs → c ≠ '0' :=
  natDigitsAux_head_ne_zero (n + 1) n (Nat.lt_succ_self n) h

theorem digitsToNat_natDigits (n : Nat) : digitsToNat (natDigits n) = n :=
  digitsToNat_natDigitsAux (n + 1) n (Nat.lt_succ_self n)

theorem takeWhile_digits_append {ds rest : List Char} (hds : ∀ c ∈ ds, c.isDigit = true)
    (hrest : ∀ c cs, rest = c :: cs → c.isDigit = false) :
    (ds ++ rest).takeWhile Char.isDigit = ds ∧
      (ds ++ rest).dropWhile Char.isDigit = rest := by
  induction ds with
  | nil =>
    rcases rest with _ | ⟨c, cs⟩
    · simp
    · have := hrest c cs rfl
      simp [List.takeWhile_cons, List.dropWhile_cons, this]
  | cons d ds ih =>
    have hd : d.isDigit = true := hds d (by simp)
    have ih2 := ih (fun c hc => hds c (by simp [hc]))
    simp [List.takeWhile_cons, List.dropWhile_cons, hd, ih2.1, ih2.2]

theorem span_digits_append {ds rest : List Char} (hds : ∀ c ∈ ds, c.isDigit = true)
    (hrest : ∀ c cs, rest = c :: cs → c.isDigit = false) :
    (ds ++ rest).span Char.isDigit = (ds, rest) := by
  rw [List.span_eq_take_drop, (takeWhile_digits_append hds hrest).1,
    (takeWhile_digits_append hds hrest).2]

/-! ### Round-trip: number literals -/

mutual
/-- Does the value avoid `floatRaw` everywhere?  (Float literals are not
round-trippable in this model.) -/
def noFloat : Json → Bool
  | .null => true
  | .bool _ => true
  | .num _ => true
  | .str _ => true
  | .floatRaw _ => false
  | .arr xs => noFloatArr xs
  | .obj kvs => noFloatObj kvs
termination_by structural v => v

/-- `noFloat` on every element. -/
def noFloatArr : JArr → Bool
  | .nil => true
  | .cons x xs => noFloat x && noFloatArr xs
termination_by structural xs => xs

/-- `noFloat` on every entry value. -/
def noFloatObj : JObj → Bool
  | .nil => true
  | .cons _ v kvs => noFloat v && noFloatObj kvs
termination_by structural kvs => kvs
end

mutual
/-- Enough parser fuel to re-parse the rendering of a value. -/
def jfuel : Json → Nat
  | .null => 1
  | .bool _ => 1
  | .num _ => 1
  | .str _ => 1
  | .floatRaw _ => 0
  | .arr xs => 1 + jfuelArr xs
  | .obj kvs => 1 + jfuelObj kvs
termination_by structural v => v

/-- Fuel for the element loop of an array. -/
def jfuelArr : JArr → Nat
  | .nil => 0
  | .cons x xs => 1 + jfuel x + jfuelArr xs
termination_by structural xs => xs

/-- Fuel for the entry loop of an object. -/
def jfuelObj : JObj → Nat
  | .nil => 0
  | .cons _ v kvs => 1 + jfuel v + jfuelObj kvs
termination_by structural kvs => kvs
end

/-- The characters following a rendered value may not extend a number
literal: the remainder must not start with a digit, a decimal point or an
exponent marker.  (Inside arrays and objects the remainder starts with `,`,
`]` or `}`.) -/
def safeRest : List Char → Bool
  | [] => true
  | c :: _ => !c.isDigit && c ≠ '.' && c ≠ 'e' && c ≠ 'E'

theorem isDigit_ne {c : Char} (h : c.isDigit = true) :
    c ≠ '-' ∧ c ≠ '"' ∧ c ≠ '{' ∧ c ≠ '[' ∧ c ≠ '.' ∧ c ≠ 'e' ∧ c ≠ 'E' ∧
      c ≠ 'n' ∧ c ≠ 't' ∧ c ≠ 'f' ∧ c ≠ 'N' ∧ c ≠ 'I' := by
  refine ⟨?_, ?_, ?_, ?_, ?_, ?_, ?_, ?_, ?_, ?_, ?_, ?_⟩ <;>
    (rintro rfl; exact absurd h (by decide))

theorem safeRest_head {rest : List Char} (h : safeRest rest = true) :
    ∀ c cs, rest = c :: cs → c.isDigit = false ∧ c ≠ '.' ∧ c ≠ 'e' ∧ c ≠ 'E' := by
  intro c cs hc
  subst hc
  simp [safeRest] at h
  refine ⟨?_, ?_, ?_, ?_⟩ <;> tauto

theorem numSign_cons {c : Char} (h : c ≠ '-') (X : List Char) :
    numSign (c :: X) = ([], c :: X) := by
  unfold numSign
  split
  next r heq =>
    simp at heq
    exact absurd heq.1 h
  next => rfl

theorem numSign_neg (X : List Char) : numSign ('-' :: X) = (['-'], X) := rfl

theorem numFrac_safe {r : List Char} (h : safeRest r = true) : numFrac r = ([], r) := by
  rcases r with _ | ⟨c, cs⟩
  · rfl
  · have hc := (safeRest_head h c cs rfl).2.1
    unfold numFrac
    split
    next rest heq =>
      simp at heq
      exact absurd heq.1 hc
    next => rfl

theorem numExp_safe {r : List Char} (h : safeRest r = true) : numExp r = ([], r) := by
  rcases r with _ | ⟨c, cs⟩
  · rfl
  · have hc := safeRest_head h c cs rfl
    unfold numExp
    simp [hc.2.2.1, hc.2.2.2]

theorem parseNumber_digits {c : Char} {ds rest : List Char}
    (hall : ∀ d ∈ c :: ds, d.isDigit = true)
    (hc0 : c = '0' → ds = [])
    (hrest : safeRest rest = true) :
    parseNumber ((c :: ds) ++ rest) = some (.num (digitsToNat (c :: ds)), rest) := by
  have hcd : c.isDigit = true := hall c (by simp)
  have hne := isDigit_ne hcd
  have hrest2 : ∀ c2 cs2, rest = c2 :: cs2 → c2.isDigit = false :=
    fun c2 cs2 hx => (safeRest_head hrest c2 cs2 hx).1
  have hspan : ((c :: ds) ++ rest).span Char.isDigit = (c :: ds, rest) :=
    span_digits_append hall hrest2
  unfold parseNumber
  rw [List.cons_append, numSign_cons hne.1]
  simp only [hcd, if_true]
  by_cases hc : c = '0'
  · have hds : ds = [] := hc0 hc
    subst hds
    subst hc
    simp [numFrac_safe hrest, numExp_safe hrest]
  · simp only [if_neg hc, ← List.cons_append, hspan, numFrac_safe hrest,
      numExp_safe hrest]
    simp

/-! ### Round-trip: string literals -/

theorem hexVal_digitChar {d : Nat} (h : d < 16) : hexVal (Nat.digitChar d) = some d := by
  interval_cases d <;> decide

theorem parseStringBody_encode (cs rest : List Char) :
    parseStringBody (cs.flatMap encodeChar ++ '"' :: rest) = some (cs, rest) := by
  induction cs with
  | nil => simp [parseStringBody]
  | cons c cs ih =>
    rw [List.flatMap_cons, List.append_assoc]
    by_cases h1 : c = '"'
    · subst h1
      simp [encodeChar, parseStringBody, ih]
    · by_cases h2 : c = '\\'
      · subst h2
        simp [encodeChar, parseStringBody, ih]
      · by_cases h3 : c = '\n'
        · subst h3
          simp [encodeChar, parseStringBody, ih]
        · by_cases h4 : c = '\t'
          · subst h4
            simp [encodeChar, parseStringBody, ih]
          · by_cases h5 : c = '\r'
            · subst h5
              simp [encodeChar, parseStringBody, ih]
            · by_cases h6 : c = '\x08'
              · subst h6
                simp [encodeChar, parseStringBody, ih]
              · by_cases h7 : c = '\x0c'
                · subst h7
                  simp [encodeChar, parseStringBody, ih]
                · by_cases h8 : c.toNat < 0x20
                  · have hhi : c.toNat / 16 < 16 := by omega
                    have hlo : c.toNat % 16 < 16 := by omega
                    have h0 : hexVal '0' = some 0 := rfl
                    simp only [encodeChar, if_neg h1, if_neg h2, if_neg h3, if_neg h4,
                      if_neg h5, if_neg h6, if_neg h7, if_pos h8]
                    simp only [List.cons_append, List.nil_append]
                    rw [parseStringBody]
                    simp [h0, hexVal_digitChar hhi, hexVal_digitChar hlo]
                    have ht : c.toNat / 16 * 16 + c.toNat % 16 = c.toNat := by omega
                    rw [ht, if_neg (by omega : ¬(55296 ≤ c.toNat ∧ c.toNat < 56320)),
                      if_neg (by omega : ¬(56320 ≤ c.toNat ∧ c.toNat < 57344)), ih]
                    simp
                  · simp only [encodeChar, if_neg h1, if_neg h2, if_neg h3, if_neg h4,
                      if_neg h5, if_neg h6, if_neg h7, if_neg h8]
                    simp only [List.cons_append, List.nil_append]
                    rw [parseStringBody]
                    · simp [h8, ih]
                    all_goals (intros; simp_all)

theorem parseNumber_renderInt (n : Int) {rest : List Char} (h : safeRest rest = true) :
    parseNumber (renderInt n ++ rest) = some (.num n, rest) := by
  by_cases hn : n < 0
  · rw [renderInt, if_pos hn]
    have hpos : 0 < n.natAbs := by omega
    rcases he : natDigits n.natAbs with _ | ⟨c, ds⟩
    · exact absurd he (natDigits_ne_nil _)
    · have hall : ∀ d ∈ c :: ds, d.isDigit = true := by
        rw [← he]; exact natDigits_all_digit _
      have hcd : c.isDigit = true := hall c (by simp)
      have hne := isDigit_ne hcd
      have hcz : c ≠ '0' := natDigits_head_ne_zero hpos c ds he
      have hrest2 : ∀ c2 cs2, rest = c2 :: cs2 → c2.isDigit = false :=
        fun c2 cs2 hx => (safeRest_head h c2 cs2 hx).1
      have hpair := @takeWhile_digits_append ds rest
        (fun d hd => hall d (List.mem_cons_of_mem c hd)) hrest2
      have hval : digitsToNat (c :: ds) = n.natAbs := by
        rw [← he]; exact digitsToNat_natDigits _
      unfold parseNumber
      rw [List.cons_append, numSign_neg]
      simp [hcd, hcz, hpair.1, hpair.2, numFrac_safe h, numExp_safe h]
      rw [hval]
      omega
  · rw [renderInt, if_neg hn]
    rcases he : natDigits n.toNat with _ | ⟨c, ds⟩
    · exact absurd he (natDigits_ne_nil _)
    · have hall : ∀ d ∈ c :: ds, d.isDigit = true := by
        rw [← he]; exact natDigits_all_digit _
      have hc0 : c = '0' → ds = [] := by
        intro hc
        by_cases h0 : n.toNat = 0
        · rw [h0] at he
          have : natDigits 0 = ['0'] := rfl
          rw [this] at he
          simp at he
          exact he.2
        · exact absurd hc (natDigits_head_ne_zero (by omega) c ds he)
      have hval : digitsToNat (c :: ds) = n.toNat := by
        rw [← he]; exact digitsToNat_natDigits _
      rw [parseNumber_digits hall hc0 h, hval]
      have h2 : (n.toNat : Int) = n := Int.toNat_of_nonneg (by omega)
      rw [h2]

/-! ### Head and tail shape of rendered values -/

/-- The first character of a rendered (float-free) value. -/
def isHeadClass (c : Char) : Prop :=
  c = 'n' ∨ c = 't' ∨ c = 'f' ∨ c = '"' ∨ c = '[' ∨ c = '{' ∨ c = '-' ∨ c.isDigit = true

theorem isDigit_not_jsonWs {c : Char} (h : c.isDigit = true) : isJsonWs c = false := by
  cases hws : isJsonWs c
  · rfl
  · exfalso
    simp [isJsonWs] at hws
    rcases hws with ((h2 | h2) | h2) | h2 <;> (subst h2; exact absurd h (by decide))

theorem isDigit_not_pyWs {c : Char} (h : c.isDigit = true) : isPyWs c = false := by
  cases hws : isPyWs c
  · rfl
  · exfalso
    simp [isPyWs] at hws
    rcases hws with ((((h2 | h2) | h2) | h2) | h2) | h2 <;>
      (subst h2; exact absurd h (by decide))

theorem isDigit_ne2 {c : Char} (h : c.isDigit = true) :
    c ≠ ']' ∧ c ≠ '}' ∧ c ≠ ',' ∧ c ≠ '`' ∧ c ≠ ':' := by
  refine ⟨?_, ?_, ?_, ?_, ?_⟩ <;> (rintro rfl; exact absurd h (by decide))

theorem headClass_not_ws {c : Char} (h : isHeadClass c) :
    isJsonWs c = false ∧ isPyWs c = false ∧ c ≠ ']' ∧ c ≠ '}' ∧ c ≠ ',' := by
  rcases h with h | h | h | h | h | h | h | h
  · subst h; exact ⟨rfl, rfl, by decide, by decide, by decide⟩
  · subst h; exact ⟨rfl, rfl, by decide, by decide, by decide⟩
  · subst h; exact ⟨rfl, rfl, by decide, by decide, by decide⟩
  · subst h; exact ⟨rfl, rfl, by decide, by decide, by decide⟩
  · subst h; exact ⟨rfl, rfl, by decide, by decide, by decide⟩
  · subst h; exact ⟨rfl, rfl, by decide, by decide, by decide⟩
  · subst h; exact ⟨rfl, rfl, by decide, by decide, by decide⟩
  · exact ⟨isDigit_not_jsonWs h, isDigit_not_pyWs h, (isDigit_ne2 h).1,
      (isDigit_ne2 h).2.1, (isDigit_ne2 h).2.2.1⟩

theorem renderInt_head (n : Int) :
    ∃ c cs, renderInt n = c :: cs ∧ (c = '-' ∨ c.isDigit = true) := by
  unfold renderInt
  split
  · rcases he : natDigits n.natAbs with _ | ⟨c, cs⟩
    · exact absurd he (natDigits_ne_nil _)
    · exact ⟨'-', natDigits n.natAbs, by rw [he], Or.inl rfl⟩
  · rcases he : natDigits n.toNat with _ | ⟨c, cs⟩
    · exact absurd he (natDigits_ne_nil _)
    · exact ⟨c, cs, rfl, Or.inr (natDigits_all_digit _ c (by rw [he]; simp))⟩

theorem render_head (v : Json) (h : noFloat v = true) :
    ∃ c cs, render v = c :: cs ∧ isHeadClass c := by
  cases v with
  | null => exact ⟨'n', _, rfl, Or.inl rfl⟩
  | bool b =>
    cases b
    · exact ⟨'f', _, rfl, by unfold isHeadClass; tauto⟩
    · exact ⟨'t', _, rfl, by unfold isHeadClass; tauto⟩
  | num n =>
    obtain ⟨c, cs, hc, hcl⟩ := renderInt_head n
    refine ⟨c, cs, hc, ?_⟩
    unfold isHeadClass
    tauto
  | str s => exact ⟨'"', _, rfl, by unfold isHeadClass; tauto⟩
  | floatRaw raw => exact absurd h (by simp [noFloat])
  | arr xs =>
    cases xs
    · exact ⟨'[', _, rfl, by unfold isHeadClass; tauto⟩
    · exact ⟨'[', _, rfl, by unfold isHeadClass; tauto⟩
  | obj kvs =>
    cases kvs
    · exact ⟨'{', _, rfl, by unfold isHeadClass; tauto⟩
    · exact ⟨'{', _, rfl, by unfold isHeadClass; tauto⟩

theorem skipWs_cons_of_not_ws {c : Char} {cs : List Char} (h : isJsonWs c = false) :
    skipWs (c :: cs) = c :: cs := by
  simp [skipWs, List.dropWhile_cons, h]

theorem safeRest_closer (rest : List Char) :
    safeRest (']' :: rest) = true ∧ safeRest ('}' :: rest) = true ∧
      safeRest (',' :: rest) = true := by
  refine ⟨?_, ?_, ?_⟩ <;> simp [safeRest]

/-! ### Round-trip: the full parser over the full serializer -/

theorem parse_render_all :
    ∀ f : Nat,
      (∀ v rest, noFloat v = true → jfuel v ≤ f → safeRest rest = true →
        parseVal f (render v ++ rest) = some (v, rest)) ∧
      (∀ x xs rest, noFloat x = true → noFloatArr xs = true →
        jfuelArr (.cons x xs) ≤ f → safeRest rest = true →
        parseItems f (render x ++ (renderArrTail xs ++ ']' :: rest)) =
          some (.cons x xs, rest)) ∧
      (∀ k v kvs rest, noFloat v = true → noFloatObj kvs = true →
        jfuelObj (.cons k v kvs) ≤ f → safeRest rest = true →
        parseMembers f
            ((encodeString k ++ ':' :: ' ' :: render v) ++ (renderObjTail kvs ++ '}' :: rest)) =
          some (.cons k v kvs, rest)) := by
  intro f
  induction f with
  | zero =>
    refine ⟨?_, ?_, ?_⟩
    · intro v rest hnf hfu hsr
      cases v with
      | floatRaw raw => simp [noFloat] at hnf
      | null => simp [jfuel] at hfu
      | bool b => simp [jfuel] at hfu
      | num n => simp [jfuel] at hfu
      | str s => simp [jfuel] at hfu
      | arr xs => simp [jfuel] at hfu
      | obj kvs => simp [jfuel] at hfu
    · intro x xs rest _ _ hfu _
      simp [jfuelArr] at hfu
    · intro k v kvs rest _ _ hfu _
      simp [jfuelObj] at hfu
  | succ f ih =>
    obtain ⟨ihV, ihI, ihM⟩ := ih
    refine ⟨?_, ?_, ?_⟩
    · intro v rest hnf hfu hsr
      cases v with
      | null =>
        have hd : render Json.null = ['n', 'u', 'l', 'l'] := rfl
        rw [hd]
        simp [parseVal]
      | bool b =>
        cases b
        · have hd : render (Json.bool false) = ['f', 'a', 'l', 's', 'e'] := rfl
          rw [hd]
          simp [parseVal]
        · have hd : render (Json.bool true) = ['t', 'r', 'u', 'e'] := rfl
          rw [hd]
          simp [parseVal]
      | floatRaw raw => simp [noFloat] at hnf
      | num n =>
        obtain ⟨c, cs, hc, hcl⟩ := renderInt_head n
        have hgoal : render (Json.num n) = renderInt n := rfl
        rw [hgoal, hc, List.cons_append]
        have e1 : "null".data = ['n', 'u', 'l', 'l'] := rfl
        have e2 : "true".data = ['t', 'r', 'u', 'e'] := rfl
        have e3 : "false".data = ['f', 'a', 'l', 's', 'e'] := rfl
        have e4 : "NaN".data = ['N', 'a', 'N'] := rfl
        have e5 : "Infinity".data = ['I', 'n', 'f', 'i', 'n', 'i', 't', 'y'] := rfl
        have e6 : "-Infinity".data = ['-', 'I', 'n', 'f', 'i', 'n', 'i', 't', 'y'] := rfl
        rcases hcl with hneg | hdig
        · subst hneg
          have hn : n < 0 := by
            by_contra hn
            rw [renderInt, if_neg hn] at hc
            rcases he : natDigits n.toNat with _ | ⟨c2, cs2⟩
            · exact absurd he (natDigits_ne_nil _)
            · rw [he] at hc
              have hd2 : c2.isDigit = true := natDigits_all_digit _ c2 (by rw [he]; simp)
              simp at hc
              rw [hc.1] at hd2
              exact absurd hd2 (by decide)
          have hcs : cs = natDigits n.natAbs := by
            rw [renderInt, if_pos hn] at hc
            simp at hc
            exact hc.symm
          rcases he : natDigits n.natAbs with _ | ⟨c2, cs2⟩
          · exact absurd he (natDigits_ne_nil _)
          · have hd2 : c2.isDigit = true := natDigits_all_digit _ c2 (by rw [he]; simp)
            have hne2 := isDigit_ne hd2
            rw [hcs, he, List.cons_append]
            rw [parseVal]
            simp only [e1, e2, e3, e4, e5, e6, List.take_succ_cons, List.cons.injEq]
            simp [hne2.2.2.2.2.2.2.2.2.2.2.2]
            rw [← List.cons_append, ← List.cons_append, ← he, ← hcs, ← hc]
            exact parseNumber_renderInt n hsr
        · have hne := isDigit_ne hdig
          rw [parseVal]
          simp only [e1, e2, e3, e4, e5, e6, List.take_succ_cons, List.cons.injEq]
          simp [hne.2.1, hne.2.2.1, hne.2.2.2.1, hne.2.2.2.2.2.2.2.1,
            hne.2.2.2.2.2.2.2.2.1, hne.2.2.2.2.2.2.2.2.2.1, hne.2.2.2.2.2.2.2.2.2.2.1,
            hne.2.2.2.2.2.2.2.2.2.2.2, hne.1]
          rw [← List.cons_append, ← hc]
          exact parseNumber_renderInt n hsr
      | str s =>
        have hgoal : render (Json.str s) = '"' :: (s.data.flatMap encodeChar ++ ['"']) := rfl
        rw [hgoal, List.cons_append]
        rw [parseVal]
        simp only [List.append_assoc, List.singleton_append]
        simp [parseStringBody_encode]
      | arr xs =>
        cases xs with
        | nil =>
          have hd : render (Json.arr .nil) = ['[', ']'] := rfl
          rw [hd]
          simp [parseVal, skipWs, isJsonWs]
        | cons x xs =>
          have hnf2 : noFloat x = true ∧ noFloatArr xs = true := by
            have h1 : noFloat (Json.arr (.cons x xs)) = (noFloat x && noFloatArr xs) := rfl
            rw [h1] at hnf
            simpa using hnf
          have hfu2 : jfuelArr (JArr.cons x xs) ≤ f := by
            have h1 : jfuel (Json.arr (.cons x xs)) = 1 + jfuelArr (JArr.cons x xs) := rfl
            omega
          have hd : render (Json.arr (.cons x xs))
              = '[' :: ((render x ++ renderArrTail xs) ++ [']']) := rfl
          rw [hd, List.cons_append]
          rw [parseVal]
          simp only [List.append_assoc, List.singleton_append, reduceIte]
          obtain ⟨c0, cs0, hch, hcl⟩ := render_head x hnf2.1
          have hfacts := headClass_not_ws hcl
          rw [hch, List.cons_append, skipWs_cons_of_not_ws hfacts.1]
          rw [if_neg (by decide), if_neg (by decide)]
          split
          next heq =>
            simp at heq
            exact absurd heq.1 hfacts.2.2.1
          next =>
            rw [← List.cons_append, ← hch, ihI x xs rest hnf2.1 hnf2.2 hfu2 hsr]
            simp
      | obj kvs =>
        cases kvs with
        | nil =>
          have hd : render (Json.obj .nil) = ['{', '}'] := rfl
          rw [hd]
          simp [parseVal, skipWs, isJsonWs]
        | cons k v kvs =>
          have hnf2 : noFloat v = true ∧ noFloatObj kvs = true := by
            have h1 : noFloat (Json.obj (.cons k v kvs)) = (noFloat v && noFloatObj kvs) := rfl
            rw [h1] at hnf
            simpa using hnf
          have hfu2 : jfuelObj (JObj.cons k v kvs) ≤ f := by
            have h1 : jfuel (Json.obj (.cons k v kvs)) = 1 + jfuelObj (JObj.cons k v kvs) := rfl
            omega
          have hd : render (Json.obj (.cons k v kvs))
              = '{' :: (((encodeString k ++ ':' :: ' ' :: render v) ++ renderObjTail kvs)
                ++ ['}']) := rfl
          rw [hd, List.cons_append]
          rw [parseVal]
          simp only [List.append_assoc, List.singleton_append, reduceIte]
          have hE : encodeString k = '"' :: (k.data.flatMap encodeChar ++ ['"']) := rfl
          rw [hE]
          simp only [List.cons_append]
          rw [skipWs_cons_of_not_ws (by decide)]
          rw [if_neg (by decide)]
          split
          next heq => simp at heq
          next =>
            have hback : '"' :: ((k.data.flatMap encodeChar ++ ['"'])
                  ++ (':' :: ' ' :: (render v ++ (renderObjTail kvs ++ '}' :: rest))))
                = (encodeString k ++ ':' :: ' ' :: render v)
                  ++ (renderObjTail kvs ++ '}' :: rest) := by
              simp [encodeString]
            rw [hback, ihM k v kvs rest hnf2.1 hnf2.2 hfu2 hsr]
            simp
    · intro x xs rest hnx hnxs hfu hsr
      have hsafe : safeRest (renderArrTail xs ++ ']' :: rest) = true := by
        cases xs with
        | nil => simp [renderArrTail, safeRest]
        | cons y ys =>
          have h1 : renderArrTail (JArr.cons y ys) ++ ']' :: rest
              = ',' :: (' ' :: (render y ++ renderArrTail ys) ++ ']' :: rest) := by
            simp [renderArrTail]
          rw [h1]
          simp [safeRest]
      have hfu2 : jfuel x ≤ f := by
        have h1 : jfuelArr (JArr.cons x xs) = 1 + jfuel x + jfuelArr xs := rfl
        omega
      rw [parseItems]
      rw [ihV x _ hnx hfu2 hsafe]
      simp only [Option.bind_eq_bind, Option.some_bind]
      cases xs with
      | nil =>
        have h1 : renderArrTail JArr.nil ++ ']' :: rest = ']' :: rest := by
          simp [renderArrTail]
        rw [h1, skipWs_cons_of_not_ws (by decide)]
        simp
      | cons y ys =>
        have hny : noFloat y = true ∧ noFloatArr ys = true := by
          have h1 : noFloatArr (JArr.cons y ys) = (noFloat y && noFloatArr ys) := rfl
          rw [h1] at hnxs
          simpa using hnxs
        have hfy : jfuelArr (JArr.cons y ys) ≤ f := by
          have h1 : jfuelArr (JArr.cons x (JArr.cons y ys))
              = 1 + jfuel x + jfuelArr (JArr.cons y ys) := rfl
          omega
        have ht : renderArrTail (JArr.cons y ys) ++ ']' :: rest
            = ',' :: ' ' :: ((render y ++ renderArrTail ys) ++ ']' :: rest) := by
          simp [renderArrTail]
        rw [ht, skipWs_cons_of_not_ws (by decide)]
        obtain ⟨c0, cs0, hch, hcl⟩ := render_head y hny.1
        have hfacts := headClass_not_ws hcl
        have hws0 : isJsonWs ' ' = true := rfl
        have hz : skipWs (' ' :: (render y ++ (renderArrTail ys ++ ']' :: rest)))
            = render y ++ (renderArrTail ys ++ ']' :: rest) := by
          rw [hch, List.cons_append]
          simp [skipWs, List.dropWhile_cons, hws0, hfacts.1]
        simp [hz, ihI y ys rest hny.1 hny.2 hfy hsr]
    · intro k v kvs rest hnv hnkvs hfu hsr
      have hsafe : safeRest (renderObjTail kvs ++ '}' :: rest) = true := by
        cases kvs with
        | nil => simp [renderObjTail, safeRest]
        | cons k2 v2 kvs2 =>
          have h1 : renderObjTail (JObj.cons k2 v2 kvs2) ++ '}' :: rest
              = ',' :: (' ' :: ((encodeString k2 ++ ':' :: ' ' :: render v2)
                ++ renderObjTail kvs2) ++ '}' :: rest) := by
            simp [renderObjTail]
          rw [h1]
          simp [safeRest]
      have hfu2 : jfuel v ≤ f := by
        have h1 : jfuelObj (JObj.cons k v kvs) = 1 + jfuel v + jfuelObj kvs := rfl
        omega
      have hshape : (encodeString k ++ ':' :: ' ' :: render v)
            ++ (renderObjTail kvs ++ '}' :: rest)
          = '"' :: (k.data.flatMap encodeChar
            ++ ('"' :: (':' :: ' ' :: (render v ++ (renderObjTail kvs ++ '}' :: rest))))) := by
        simp [encodeString]
      rw [hshape]
      rw [parseMembers]
      rw [parseStringBody_encode]
      simp only [Option.bind_eq_bind, Option.some_bind]
      rw [skipWs_cons_of_not_ws (by decide)]
      obtain ⟨c0, cs0, hch, hcl⟩ := render_head v hnv
      have hfacts := headClass_not_ws hcl
      have hv : skipWs (' ' :: (render v ++ (renderObjTail kvs ++ '}' :: rest)))
          = render v ++ (renderObjTail kvs ++ '}' :: rest) := by
        have h1 : skipWs (' ' :: (render v ++ (renderObjTail kvs ++ '}' :: rest)))
            = skipWs (render v ++ (renderObjTail kvs ++ '}' :: rest)) := by
          simp [skipWs, List.dropWhile_cons, isJsonWs]
        rw [h1, hch, List.cons_append, skipWs_cons_of_not_ws hfacts.1, ← List.cons_append,
          ← hch]
      simp [hv, ihV v _ hnv hfu2 hsafe]
      cases kvs with
      | nil =>
        have h1 : renderObjTail JObj.nil ++ '}' :: rest = '}' :: rest := by
          simp [renderObjTail]
        rw [h1, skipWs_cons_of_not_ws (by decide)]
        simp
      | cons k2 v2 kvs2 =>
        have hn2 : noFloat v2 = true ∧ noFloatObj kvs2 = true := by
          have h1 : noFloatObj (JObj.cons k2 v2 kvs2) = (noFloat v2 && noFloatObj kvs2) := rfl
          rw [h1] at hnkvs
          simpa using hnkvs
        have hf2 : jfuelObj (JObj.cons k2 v2 kvs2) ≤ f := by
          have h1 : jfuelObj (JObj.cons k v (JObj.cons k2 v2 kvs2))
              = 1 + jfuel v + jfuelObj (JObj.cons k2 v2 kvs2) := rfl
          omega
        have ht : renderObjTail (JObj.cons k2 v2 kvs2) ++ '}' :: rest
            = ',' :: ' ' :: (((encodeString k2 ++ ':' :: ' ' :: render v2)
              ++ renderObjTail kvs2) ++ '}' :: rest) := by
          simp [renderObjTail]
        rw [ht, skipWs_cons_of_not_ws (by decide)]
        have hws0 : isJsonWs ' ' = true := rfl
        have hE2 : encodeString k2 ++ ':' :: ' ' :: render v2
            = '"' :: ((k2.data.flatMap encodeChar ++ ['"']) ++ ':' :: ' ' :: render v2) := by
          simp [encodeString]
        have hz : skipWs (' ' :: ((encodeString k2 ++ ':' :: ' ' :: render v2)
              ++ (renderObjTail kvs2 ++ '}' :: rest)))
            = (encodeString k2 ++ ':' :: ' ' :: render v2)
              ++ (renderObjTail kvs2 ++ '}' :: rest) := by
          rw [hE2, List.cons_append]
          simp [skipWs, List.dropWhile_cons, hws0,
            (show isJsonWs '"' = false from rfl)]
        have hgoal := ihM k2 v2 kvs2 rest hn2.1 hn2.2 hf2 hsr
        simp only [List.append_assoc, List.cons_append] at hz hgoal ⊢
        simp [hz, hgoal]

theorem jfuel_le_render_len :
    ∀ n : Nat,
      (∀ v, jfuel v ≤ n → jfuel v ≤ (render v).length) ∧
      (∀ x xs, jfuelArr (.cons x xs) ≤ n →
        jfuelArr (.cons x xs) ≤ (render x).length + (renderArrTail xs).length + 1) ∧
      (∀ k v kvs, jfuelObj (.cons k v kvs) ≤ n →
        jfuelObj (.cons k v kvs)
          ≤ (encodeString k ++ ':' :: ' ' :: render v).length + (renderObjTail kvs).length + 1) := by
  intro n
  induction n with
  | zero =>
    refine ⟨?_, ?_, ?_⟩
    · intro v hv
      cases v with
      | floatRaw raw => simp [jfuel]
      | null => simp [jfuel] at hv
      | bool b => simp [jfuel] at hv
      | num m => simp [jfuel] at hv
      | str s => simp [jfuel] at hv
      | arr xs => simp [jfuel] at hv
      | obj kvs => simp [jfuel] at hv
    · intro x xs h
      simp [jfuelArr] at h
    · intro k v kvs h
      simp [jfuelObj] at h
  | succ n ih =>
    obtain ⟨ihV, ihI, ihM⟩ := ih
    refine ⟨?_, ?_, ?_⟩
    · intro v hv
      cases v with
      | floatRaw raw => simp [jfuel]
      | null => simp [jfuel, render]
      | bool b => cases b <;> simp [jfuel, render]
      | num m =>
        have h1 : jfuel (Json.num m) = 1 := rfl
        have h2 : render (Json.num m) = renderInt m := rfl
        rw [h1, h2]
        obtain ⟨c, cs, hc, _⟩ := renderInt_head m
        rw [hc]
        simp
      | str s =>
        have h1 : jfuel (Json.str s) = 1 := rfl
        have h2 : render (Json.str s) = '"' :: (s.data.flatMap encodeChar ++ ['"']) := rfl
        rw [h1, h2]
        simp
      | arr xs =>
        cases xs with
        | nil => simp [jfuel, jfuelArr, render]
        | cons x xs =>
          have h1 : jfuel (Json.arr (.cons x xs)) = 1 + jfuelArr (.cons x xs) := rfl
          have h2 : render (Json.arr (.cons x xs))
              = '[' :: ((render x ++ renderArrTail xs) ++ [']']) := rfl
          have h3 : jfuelArr (JArr.cons x xs) ≤ n := by
            simp [jfuel] at hv
            omega
          have := ihI x xs h3
          rw [h1, h2]
          simp
          omega
      | obj kvs =>
        cases kvs with
        | nil => simp [jfuel, jfuelObj, render]
        | cons k v kvs =>
          have h1 : jfuel (Json.obj (.cons k v kvs)) = 1 + jfuelObj (.cons k v kvs) := rfl
          have h2 : render (Json.obj (.cons k v kvs))
              = '{' :: (((encodeString k ++ ':' :: ' ' :: render v) ++ renderObjTail kvs)
                ++ ['}']) := rfl
          have h3 : jfuelObj (JObj.cons k v kvs) ≤ n := by
            simp [jfuel] at hv
            omega
          have := ihM k v kvs h3
          rw [h1, h2]
          simp at this ⊢
          omega
    · intro x xs h
      have h1 : jfuelArr (JArr.cons x xs) = 1 + jfuel x + jfuelArr xs := rfl
      have hx : jfuel x ≤ n := by omega
      have hvx := ihV x hx
      cases xs with
      | nil =>
        have h2 : jfuelArr JArr.nil = 0 := rfl
        have h3 : renderArrTail JArr.nil = [] := rfl
        rw [h1, h2, h3]
        simp
        omega
      | cons y ys =>
        have h2 : jfuelArr (JArr.cons y ys) ≤ n := by
          have : jfuelArr (JArr.cons x (JArr.cons y ys))
              = 1 + jfuel x + jfuelArr (JArr.cons y ys) := rfl
          omega
        have hyy := ihI y ys h2
        have h3 : renderArrTail (JArr.cons y ys)
            = ',' :: ' ' :: (render y ++ renderArrTail ys) := rfl
        rw [h1, h3]
        have h4 : jfuelArr (JArr.cons y ys) = 1 + jfuel y + jfuelArr ys := rfl
        rw [h4] at hyy
        simp at hyy ⊢
        omega
    · intro k v kvs h
      have h1 : jfuelObj (JObj.cons k v kvs) = 1 + jfuel v + jfuelObj kvs := rfl
      have hx : jfuel v ≤ n := by omega
      have hvx := ihV v hx
      cases kvs with
      | nil =>
        have h2 : jfuelObj JObj.nil = 0 := rfl
        have h3 : renderObjTail JObj.nil = [] := rfl
        rw [h1, h2, h3]
        simp
        omega
      | cons k2 v2 kvs2 =>
        have h2 : jfuelObj (JObj.cons k2 v2 kvs2) ≤ n := by
          have : jfuelObj (JObj.cons k v (JObj.cons k2 v2 kvs2))
              = 1 + jfuel v + jfuelObj (JObj.cons k2 v2 kvs2) := rfl
          omega
        have hyy := ihM k2 v2 kvs2 h2
        have h3 : renderObjTail (JObj.cons k2 v2 kvs2)
            = ',' :: ' ' :: ((encodeString k2 ++ ':' :: ' ' :: render v2)
              ++ renderObjTail kvs2) := rfl
        rw [h1, h3]
        have h4 : jfuelObj (JObj.cons k2 v2 kvs2) = 1 + jfuel v2 + jfuelObj kvs2 := rfl
        rw [h4] at hyy
        simp at hyy ⊢
        omega

theorem loads_render (v : Json) (h : noFloat v = true) : loads (render v) = some v := by
  obtain ⟨c, cs, hch, hcl⟩ := render_head v h
  have hfacts := headClass_not_ws hcl
  have hsk : skipWs (render v) = render v := by
    rw [hch]
    exact skipWs_cons_of_not_ws hfacts.1
  unfold loads
  simp only [hsk]
  have hfuel : jfuel v ≤ (render v).length + 1 := by
    have := (jfuel_le_render_len (jfuel v)).1 v (Nat.le_refl _)
    omega
  have hp := (parse_render_all ((render v).length + 1)).1 v [] h hfuel (by simp [safeRest])
  rw [List.append_nil] at hp
  rw [hp]
  simp [skipWs]

theorem getLast_mem_of_ne_nil {l : List Char} (h : l ≠ []) :
    ∃ d, l.getLast? = some d ∧ d ∈ l := by
  exact ⟨l.getLast h, List.getLast?_eq_getLast l h, List.getLast_mem h⟩

theorem render_last (v : Json) (h : noFloat v = true) :
    ∃ d, (render v).getLast? = some d ∧ isPyWs d = false := by
  cases v with
  | null => exact ⟨'l', rfl, rfl⟩
  | bool b => cases b <;> exact ⟨'e', rfl, rfl⟩
  | num n =>
    have h2 : render (Json.num n) = renderInt n := rfl
    rw [h2]
    unfold renderInt
    split
    · obtain ⟨d, hd, hmem⟩ := getLast_mem_of_ne_nil (natDigits_ne_nil (Int.natAbs n))
      have hdig := natDigits_all_digit _ d hmem
      refine ⟨d, ?_, isDigit_not_pyWs hdig⟩
      rcases he : natDigits n.natAbs with _ | ⟨c2, cs2⟩
      · exact absurd he (natDigits_ne_nil _)
      · rw [he] at hd
        rw [List.getLast?_cons, hd]
        simp
    · obtain ⟨d, hd, hmem⟩ := getLast_mem_of_ne_nil (natDigits_ne_nil (Int.toNat n))
      exact ⟨d, hd, isDigit_not_pyWs (natDigits_all_digit _ d hmem)⟩
  | str s =>
    have h2 : render (Json.str s) = ('"' :: s.data.flatMap encodeChar) ++ ['"'] := by
      have : render (Json.str s) = '"' :: (s.data.flatMap encodeChar ++ ['"']) := rfl
      rw [this]
      simp
    rw [h2, List.getLast?_concat]
    exact ⟨'"', rfl, rfl⟩
  | floatRaw raw => exact absurd h (by simp [noFloat])
  | arr xs =>
    cases xs with
    | nil => exact ⟨']', rfl, rfl⟩
    | cons x xs =>
      have h2 : render (Json.arr (.cons x xs))
          = ('[' :: (render x ++ renderArrTail xs)) ++ [']'] := by
        have : render (Json.arr (.cons x xs))
            = '[' :: ((render x ++ renderArrTail xs) ++ [']']) := rfl
        rw [this]
        simp
      rw [h2, List.getLast?_concat]
      exact ⟨']', rfl, rfl⟩
  | obj kvs =>
    cases kvs with
    | nil => exact ⟨'}', rfl, rfl⟩
    | cons k v kvs =>
      have h2 : render (Json.obj (.cons k v kvs))
          = ('{' :: ((encodeString k ++ ':' :: ' ' :: render v) ++ renderObjTail kvs))
            ++ ['}'] := by
        have : render (Json.obj (.cons k v kvs))
            = '{' :: (((encodeString k ++ ':' :: ' ' :: render v) ++ renderObjTail kvs)
              ++ ['}']) := rfl
        rw [this]
        simp
      rw [h2, List.getLast?_concat]
      exact ⟨'}', rfl, rfl⟩

theorem pyStrip_eq_self {s : List Char} {c d : Char} {cs : List Char}
    (hc : s = c :: cs) (hcw : isPyWs c = false)
    (hd : s.getLast? = some d) (hdw : isPyWs d = false) : pyStrip s = s := by
  unfold pyStrip
  subst hc
  rw [List.dropWhile_cons, if_neg (by simp [hcw])]
  have hrev : (c :: cs).reverse.head? = some d := by
    rw [List.head?_reverse]
    exact hd
  rcases hr : (c :: cs).reverse with _ | ⟨d2, ds⟩
  · have : (c :: cs).reverse ≠ [] := by simp
    exact absurd hr this
  · rw [hr] at hrev
    simp at hrev
    subst hrev
    rw [List.dropWhile_cons, if_neg (by simp [hdw]), ← hr, List.reverse_reverse]

theorem pyStrip_render (v : Json) (h : noFloat v = true) :
    pyStrip (render v) = render v := by
  obtain ⟨c, cs, hch, hcl⟩ := render_head v h
  obtain ⟨d, hd, hdw⟩ := render_last v h
  exact pyStrip_eq_self hch (headClass_not_ws hcl).2.1 hd hdw

/-- Does the text contain a triple backtick anywhere? -/
def hasFence : List Char → Bool
  | [] => false
  | c :: rest => startsWithFence (c :: rest) || hasFence rest

theorem parseVal_backtick (f : Nat) (rest : List Char) :
    parseVal f ('`' :: rest) = none := by
  cases f with
  | zero => rfl
  | succ f =>
    rw [parseVal]
    have e1 : "null".data = ['n', 'u', 'l', 'l'] := rfl
    have e2 : "true".data = ['t', 'r', 'u', 'e'] := rfl
    have e3 : "false".data = ['f', 'a', 'l', 's', 'e'] := rfl
    have e4 : "NaN".data = ['N', 'a', 'N'] := rfl
    have e5 : "Infinity".data = ['I', 'n', 'f', 'i', 'n', 'i', 't', 'y'] := rfl
    have e6 : "-Infinity".data = ['-', 'I', 'n', 'f', 'i', 'n', 'i', 't', 'y'] := rfl
    simp only [e1, e2, e3, e4, e5, e6, List.take_succ_cons, List.cons.injEq]
    simp [parseNumber, numSign]

theorem startsWithFence_cons3 (a b c : Char) (X : List Char) :
    startsWithFence (a :: b :: c :: X) = (a = '`' && b = '`' && c = '`') := by
  unfold startsWithFence
  split
  next heq =>
    simp at heq
    simp [heq.1, heq.2.1, heq.2.2.1]
  next hne =>
    by_cases h1 : a = '`'
    · by_cases h2 : b = '`'
      · by_cases h3 : c = '`'
        · subst h1; subst h2; subst h3
          exact absurd rfl (hne X)
        · simp [h3]
      · simp [h2]
    · simp [h1]

theorem startsWithFence_append_sentinel (s : List Char) :
    startsWithFence (s ++ '\n' :: '`' :: '`' :: '`' :: []) = startsWithFence s := by
  match s with
  | [] => rfl
  | [a] =>
    simp only [List.cons_append, List.nil_append]
    rw [startsWithFence_cons3]
    simp [startsWithFence]
  | [a, b] =>
    simp only [List.cons_append, List.nil_append]
    rw [startsWithFence_cons3]
    simp [startsWithFence]
  | a :: b :: c :: t =>
    simp only [List.cons_append]
    rw [startsWithFence_cons3, startsWithFence_cons3]

theorem findFence_sentinel {s : List Char} (h : hasFence s = false) :
    findFence (s ++ '\n' :: '`' :: '`' :: '`' :: []) = some (s.length + 1) := by
  induction s with
  | nil => rfl
  | cons c t ih =>
    have h2 : hasFence t = false ∧ startsWithFence (c :: t) = false := by
      have : hasFence (c :: t) = (startsWithFence (c :: t) || hasFence t) := rfl
      rw [this] at h
      simp at h
      exact ⟨h.2, h.1⟩
    rw [List.cons_append, findFence]
    have hs : startsWithFence ((c :: t) ++ '\n' :: '`' :: '`' :: '`' :: []) = false := by
      rw [startsWithFence_append_sentinel]
      exact h2.2
    rw [List.cons_append] at hs
    rw [hs]
    simp [ih h2.1]

theorem fenceCapture_wrapped_json {s : List Char} {c0 : Char} {cs0 : List Char}
    (hsh : s = c0 :: cs0) (hws : isReWs c0 = false) (hf : hasFence s = false) :
    fenceCapture ('j' :: 's' :: 'o' :: 'n' :: '\n' :: (s ++ '\n' :: '`' :: '`' :: '`' :: []))
      = some (s, []) := by
  unfold fenceCapture
  have h1 : ('j' :: 's' :: 'o' :: 'n' :: '\n' :: (s ++ '\n' :: '`' :: '`' :: '`' :: [])).take 4
      = "json".data := rfl
  rw [if_pos h1]
  have h2 : ('j' :: 's' :: 'o' :: 'n' :: '\n' :: (s ++ '\n' :: '`' :: '`' :: '`' :: [])).drop 4
      = '\n' :: (s ++ '\n' :: '`' :: '`' :: '`' :: []) := rfl
  rw [h2]
  have h3 : ('\n' :: (s ++ '\n' :: '`' :: '`' :: '`' :: [])).dropWhile isReWs
      = s ++ '\n' :: '`' :: '`' :: '`' :: [] := by
    rw [List.dropWhile_cons, if_pos (by decide), hsh, List.cons_append,
      List.dropWhile_cons, if_neg (by simp [hws])]
  simp only [h3, findFence_sentinel hf]
  have h4 : (s ++ '\n' :: '`' :: '`' :: '`' :: []).take (s.length + 1) = s ++ ['\n'] := by
    have := @List.take_append Char s ('\n' :: '`' :: '`' :: '`' :: []) 1
    simpa using this
  have h5 : (s ++ ['\n']).getLast? = some '\n' := List.getLast?_concat _
  have h6 : (s ++ '\n' :: '`' :: '`' :: '`' :: []).drop (s.length + 1 + 3) = [] := by
    have := @List.drop_append Char s ('\n' :: '`' :: '`' :: '`' :: []) 4
    simpa using this
  simp only [h4, h5, h6]
  simp [List.dropLast_concat]

theorem fenceCapture_wrapped_plain {s : List Char} {c0 : Char} {cs0 : List Char}
    (hsh : s = c0 :: cs0) (hws : isReWs c0 = false) (hf : hasFence s = false) :
    fenceCapture ('\n' :: (s ++ '\n' :: '`' :: '`' :: '`' :: [])) = some (s, []) := by
  unfold fenceCapture
  have h1 : ('\n' :: (s ++ '\n' :: '`' :: '`' :: '`' :: [])).take 4 ≠ "json".data := by
    have e : "json".data = ['j', 's', 'o', 'n'] := rfl
    rw [e, List.take_succ_cons]
    simp
  rw [if_neg h1]
  have h3 : ('\n' :: (s ++ '\n' :: '`' :: '`' :: '`' :: [])).dropWhile isReWs
      = s ++ '\n' :: '`' :: '`' :: '`' :: [] := by
    rw [List.dropWhile_cons, if_pos (by decide), hsh, List.cons_append,
      List.dropWhile_cons, if_neg (by simp [hws])]
  simp only [h3, findFence_sentinel hf]
  have h4 : (s ++ '\n' :: '`' :: '`' :: '`' :: []).take (s.length + 1) = s ++ ['\n'] := by
    have := @List.take_append Char s ('\n' :: '`' :: '`' :: '`' :: []) 1
    simpa using this
  have h5 : (s ++ ['\n']).getLast? = some '\n' := List.getLast?_concat _
  have h6 : (s ++ '\n' :: '`' :: '`' :: '`' :: []).drop (s.length + 1 + 3) = [] := by
    have := @List.drop_append Char s ('\n' :: '`' :: '`' :: '`' :: []) 4
    simpa using this
  simp only [h4, h5, h6]
  simp [List.dropLast_concat]

theorem findCodeBlocksAux_nil (f : Nat) : findCodeBlocksAux f [] = [] := by
  cases f <;> rfl

theorem findCodeBlocks_wrapped_json {s : List Char} {c0 : Char} {cs0 : List Char}
    (hsh : s = c0 :: cs0) (hws : isReWs c0 = false) (hf : hasFence s = false) :
    findCodeBlocks ('`' :: '`' :: '`' :: 'j' :: 's' :: 'o' :: 'n' :: '\n'
      :: (s ++ '\n' :: '`' :: '`' :: '`' :: [])) = [s] := by
  unfold findCodeBlocks
  rw [List.length_cons, findCodeBlocksAux]
  rw [if_pos (by rfl)]
  have hdrop : ('`' :: '`' :: 'j' :: 's' :: 'o' :: 'n' :: '\n'
      :: (s ++ '\n' :: '`' :: '`' :: '`' :: [])).drop 2
      = 'j' :: 's' :: 'o' :: 'n' :: '\n' :: (s ++ '\n' :: '`' :: '`' :: '`' :: []) := rfl
  rw [hdrop, fenceCapture_wrapped_json hsh hws hf]
  simp [findCodeBlocksAux_nil]

theorem findCodeBlocks_wrapped_plain {s : List Char} {c0 : Char} {cs0 : List Char}
    (hsh : s = c0 :: cs0) (hws : isReWs c0 = false) (hf : hasFence s = false) :
    findCodeBlocks ('`' :: '`' :: '`' :: '\n'
      :: (s ++ '\n' :: '`' :: '`' :: '`' :: [])) = [s] := by
  unfold findCodeBlocks
  rw [List.length_cons, findCodeBlocksAux]
  rw [if_pos (by rfl)]
  have hdrop : ('`' :: '`' :: '\n'
      :: (s ++ '\n' :: '`' :: '`' :: '`' :: [])).drop 2
      = '\n' :: (s ++ '\n' :: '`' :: '`' :: '`' :: []) := rfl
  rw [hdrop, fenceCapture_wrapped_plain hsh hws hf]
  simp [findCodeBlocksAux_nil]

theorem loads_backtick_head (rest : List Char) : loads ('`' :: rest) = none := by
  unfold loads
  have h1 : skipWs ('`' :: rest) = '`' :: rest := skipWs_cons_of_not_ws (by decide)
  simp only [h1, parseVal_backtick]

theorem pyStrip_wrapped {mid : List Char} :
    pyStrip ('`' :: (mid ++ '\n' :: '`' :: '`' :: '`' :: [])) =
      '`' :: (mid ++ '\n' :: '`' :: '`' :: '`' :: []) := by
  have hlast : ('`' :: (mid ++ '\n' :: '`' :: '`' :: '`' :: [])).getLast? = some '`' := by
    rw [show '`' :: (mid ++ '\n' :: '`' :: '`' :: '`' :: [])
        = ('`' :: (mid ++ ['\n', '`', '`'])) ++ ['`'] from by simp]
    exact List.getLast?_concat _
  exact pyStrip_eq_self rfl (by decide) hlast (by decide)

theorem extract_json_dumps_direct (v : Json) (h : noFloat v = true) :
    extract_json (dumps v) = .ok v := by
  unfold extract_json
  have hdata : (dumps v).data = render v := rfl
  rw [hdata]
  simp only [pyStrip_render v h, loads_render v h]

theorem extract_json_dumps_fence_json (v : Json) (h : noFloat v = true)
    (hf : hasFence (render v) = false) :
    extract_json ("```json\n" ++ dumps v ++ "\n```") = .ok v := by
  obtain ⟨c0, cs0, hch, hcl⟩ := render_head v h
  have hfacts := headClass_not_ws hcl
  have hdata : ("```json\n" ++ dumps v ++ "\n```").data
      = '`' :: '`' :: '`' :: 'j' :: 's' :: 'o' :: 'n' :: '\n'
        :: (render v ++ '\n' :: '`' :: '`' :: '`' :: []) := by
    simp [dumps]
  unfold extract_json
  rw [hdata]
  have hshape : '`' :: '`' :: '`' :: 'j' :: 's' :: 'o' :: 'n' :: '\n'
        :: (render v ++ '\n' :: '`' :: '`' :: '`' :: [])
      = '`' :: (('`' :: '`' :: 'j' :: 's' :: 'o' :: 'n' :: '\n' :: render v)
        ++ '\n' :: '`' :: '`' :: '`' :: []) := by
    simp
  have hstrip : pyStrip ('`' :: '`' :: '`' :: 'j' :: 's' :: 'o' :: 'n' :: '\n'
        :: (render v ++ '\n' :: '`' :: '`' :: '`' :: []))
      = '`' :: (('`' :: '`' :: 'j' :: 's' :: 'o' :: 'n' :: '\n' :: render v)
        ++ '\n' :: '`' :: '`' :: '`' :: []) := by
    rw [hshape]
    exact pyStrip_wrapped
  simp only [hstrip, loads_backtick_head,
    findCodeBlocks_wrapped_json hch (show isReWs c0 = false from hfacts.2.1) hf,
    List.findSome?, pyStrip_render v h, loads_render v h]

theorem extract_json_dumps_fence_plain (v : Json) (h : noFloat v = true)
    (hf : hasFence (render v) = false) :
    extract_json ("```\n" ++ dumps v ++ "\n```") = .ok v := by
  obtain ⟨c0, cs0, hch, hcl⟩ := render_head v h
  have hfacts := headClass_not_ws hcl
  have hdata : ("```\n" ++ dumps v ++ "\n```").data
      = '`' :: '`' :: '`' :: '\n' :: (render v ++ '\n' :: '`' :: '`' :: '`' :: []) := by
    simp [dumps]
  unfold extract_json
  rw [hdata]
  have hstrip : pyStrip ('`' :: '`' :: '`' :: '\n'
        :: (render v ++ '\n' :: '`' :: '`' :: '`' :: []))
      = '`' :: (('`' :: '`' :: '\n' :: render v) ++ '\n' :: '`' :: '`' :: '`' :: []) := by
    rw [show '`' :: '`' :: '`' :: '\n' :: (render v ++ '\n' :: '`' :: '`' :: '`' :: [])
        = '`' :: (('`' :: '`' :: '\n' :: render v) ++ '\n' :: '`' :: '`' :: '`' :: [])
      from by simp]
    exact pyStrip_wrapped
  simp only [hstrip, loads_backtick_head,
    findCodeBlocks_wrapped_plain hch (show isReWs c0 = false from hfacts.2.1) hf,
    List.findSome?, pyStrip_render v h, loads_render v h]

/-- C4 (amended): extractor round-trip for serialized mappings. The original
claim — arbitrary prose around json(M) always round-trips to M — is false
(see c4_counterexample). Amended: for every float-free JSON object M whose
serialization contains no triple backtick, the extractor returns M when fed
json(M) directly, or json(M) wrapped in a fenced code block with or without
the json language tag. -/
theorem c4_extract_json_roundtrip (kvs : JObj)
    (hnf : noFloat (Json.obj kvs) = true)
    (hfence : hasFence (render (Json.obj kvs)) = false) :
    extract_json (dumps (Json.obj kvs)) = .ok (Json.obj kvs) ∧
    extract_json ("```json\n" ++ dumps (Json.obj kvs) ++ "\n```") = .ok (Json.obj kvs) ∧
    extract_json ("```\n" ++ dumps (Json.obj kvs) ++ "\n```") = .ok (Json.obj kvs) :=
  ⟨extract_json_dumps_direct _ hnf,
   extract_json_dumps_fence_json _ hnf hfence,
   extract_json_dumps_fence_plain _ hnf hfence⟩

/-- Counterexample to C4 as stated: with prose consisting of an empty object
before json(M) for M = {"a": 1}, the extractor returns the empty object,
not M. -/
theorem c4_counterexample :
    extract_json ("\x7b\x7d \x7b\"a\": 1\x7d") = .ok (Json.obj JObj.nil) ∧
    Json.obj JObj.nil ≠ Json.obj (JObj.cons "a" (Json.num 1) JObj.nil) := by
  constructor
  · rfl
  · intro h
    injection h with h2
    injection h2

/-- Witness for c4_extract_json_roundtrip at a concrete one-entry object. -/
theorem c4_witness :
    extract_json (dumps (Json.obj (JObj.cons "a" (Json.num 1) JObj.nil)))
      = .ok (Json.obj (JObj.cons "a" (Json.num 1) JObj.nil)) ∧
    extract_json ("```json\n" ++ dumps (Json.obj (JObj.cons "a" (Json.num 1) JObj.nil)) ++ "\n```")
      = .ok (Json.obj (JObj.cons "a" (Json.num 1) JObj.nil)) ∧
    extract_json ("```\n" ++ dumps (Json.obj (JObj.cons "a" (Json.num 1) JObj.nil)) ++ "\n```")
      = .ok (Json.obj (JObj.cons "a" (Json.num 1) JObj.nil)) :=
  c4_extract_json_roundtrip (JObj.cons "a" (Json.num 1) JObj.nil) (by rfl) (by rfl)

theorem findObjectsAux_no_brace (f : Nat) (t : List Char) (h : '{' ∉ t) :
    findObjectsAux f t = [] := by
  induction f generalizing t with
  | zero => rfl
  | succ f ih =>
    cases t with
    | nil => rfl
    | cons c rest =>
      have hc : ¬ c = '{' := fun hc => h (hc ▸ List.mem_cons_self c rest)
      rw [findObjectsAux, if_neg hc]
      exact ih rest (fun hm => h (List.mem_cons_of_mem c hm))

theorem lastResort_no_brace (t : List Char) (h : '{' ∉ t) : lastResort t = none := by
  unfold lastResort
  have : t.dropWhile notOpenBrace = [] := by
    rw [List.dropWhile_eq_nil_iff]
    intro x hx
    simp only [notOpenBrace, ne_eq, decide_not, Bool.not_eq_eq_eq_not, Bool.not_true,
      decide_eq_false_iff_not]
    intro hxe
    exact h (hxe ▸ hx)
  rw [this]

/-- If the whole stripped text fails to parse, every fenced block interior
fails to parse, and the text contains no opening brace, the cascade falls
through to the final raise. -/
theorem extract_json_no_brace (text : String)
    (h1 : loads (pyStrip text.data) = none)
    (h2 : ∀ m ∈ findCodeBlocks text.data, loads (pyStrip m) = none)
    (hb : '{' ∉ text.data) :
    extract_json text = .error ⟨"Could not extract valid JSON from response", text, 0⟩ := by
  unfold extract_json
  have hfs : (findCodeBlocks text.data).findSome? (fun m => loads (pyStrip m)) = none := by
    rw [List.findSome?_eq_none]
    exact h2
  have hobj : findObjects text.data = [] := findObjectsAux_no_brace _ _ hb
  simp only [h1, hfs, hobj, List.findSome?_nil, lastResort_no_brace text.data hb]

/-- C5 (amended): the original claim — any text with no brace-delimited span
makes the extractor fail — is false, since step 1 parses any bare JSON value
such as a number (see c5_counterexample).  Amended: if in addition the
stripped text and every fenced block interior fail to parse, the extractor
raises JSONDecodeError rather than returning a value. -/
theorem c5_extract_json_no_brace (text : String)
    (h1 : loads (pyStrip text.data) = none)
    (h2 : ∀ m ∈ findCodeBlocks text.data, loads (pyStrip m) = none)
    (hb : '\x7b' ∉ text.data) :
    extract_json text = .error ⟨"Could not extract valid JSON from response", text, 0⟩ :=
  extract_json_no_brace text h1 h2 hb

/-- Counterexample to C5 as stated: "123" contains no brace-delimited span,
yet the extractor returns the number 123 instead of failing. -/
theorem c5_counterexample :
    '{' ∉ "123".data ∧ extract_json "123" = .ok (Json.num 123) :=
  ⟨by decide, by rfl⟩

/-- Witness for c5_extract_json_no_brace at a concrete brace-free text. -/
theorem c5_witness :
    '{' ∉ "no json here".data ∧
    extract_json "no json here"
      = .error ⟨"Could not extract valid JSON from response", "no json here", 0⟩ :=
  ⟨by decide,
   c5_extract_json_no_brace "no json here" (by rfl)
     (fun m hm => by
       rw [show findCodeBlocks ("no json here").data = [] from rfl] at hm
       cases hm)
     (by decide)⟩

/-- C6 (amended): the original claim — the raised error carries the first
~500 characters of the input — is false: the error object carries the FULL
input text as its document (see c6_counterexample); it is the diagnostic log
line that is truncated to 500 characters.  Amended: whatever error the
extractor raises equals JSONDecodeError with the untruncated input as doc,
and the log line carries the 500-character prefix. -/
theorem c6_error_carries_full_text (text : String) (e : JSONDecodeError)
    (h : extract_json text = .error e) :
    e = ⟨"Could not extract valid JSON from response", text, 0⟩ ∧
    extractFailureLog text
      = "Failed to extract JSON from response: " ++ String.mk (text.data.take 500) ++ "..." := by
  refine ⟨?_, rfl⟩
  unfold extract_json at h
  dsimp only at h
  split at h
  · exact absurd h (by simp)
  · split at h
    · exact absurd h (by simp)
    · split at h
      · exact absurd h (by simp)
      · split at h
        · exact absurd h (by simp)
        · exact (Except.error.inj h).symm

/-- Witness for c6_error_carries_full_text at the unparseable text "x". -/
theorem c6_witness :
    (⟨"Could not extract valid JSON from response", "x", 0⟩ : JSONDecodeError)
      = ⟨"Could not extract valid JSON from response", "x", 0⟩ ∧
    extractFailureLog "x"
      = "Failed to extract JSON from response: " ++ String.mk ("x".data.take 500) ++ "..." :=
  c6_error_carries_full_text "x" ⟨"Could not extract valid JSON from response", "x", 0⟩ (by rfl)

set_option maxRecDepth 100000 in
/-- Counterexample to C6 as stated: on a 501-character unparseable input the
raised error carries all 501 characters, not the 500-character prefix. -/
theorem c6_counterexample :
    extract_json (String.mk (List.replicate 501 'a'))
      = .error ⟨"Could not extract valid JSON from response",
          String.mk (List.replicate 501 'a'), 0⟩ ∧
    (String.mk (List.replicate 501 'a')).length = 501 ∧
    (String.mk ((String.mk (List.replicate 501 'a')).data.take 500)).length = 500 := by
  refine ⟨?_, by
    show (List.replicate 501 'a').length = 501
    simp, ?_⟩
  case refine_2 =>
    show (List.take 500 (List.replicate 501 'a')).length = 500
    simp
  have hb : '{' ∉ (String.mk (List.replicate 501 'a')).data := by
    intro hm
    have := List.eq_of_mem_replicate hm
    simp at this
  refine extract_json_no_brace _ ?_ ?_ hb
  · rfl
  · intro m hm
    rw [show findCodeBlocks (String.mk (List.replicate 501 'a')).data = [] from by rfl] at hm
    cases hm

/-- Message roles in the conversation transcript. -/
inductive Role where
  | user : Role
  | assistant : Role

/-- One `ConversationMessage`: a role and a content string. -/
structure ConvMessage where
  role : Role
  content : String

/-- A follow-up question as produced by the question-generation model: the
question dict is abstracted to its `text` entry, the only part the engine
reads (`q['text']` in `wait_for_response_node`); the rest of the dict rides
along opaquely inside the question notification and never influences
control flow. -/
structure Question where
  text : String

/-- `PlanGenerationState`, plus the `gaps` entry that `evaluate_node` merges
into the LangGraph state outside the TypedDict. -/
structure PlanState where
  messages : List ConvMessage
  questions_asked : Nat
  needs_more_info : Bool
  current_questions : Option (List Question)
  plan_title : Option String
  plan_content : Option String
  session_id : String
  user_id : String
  gaps : List String

/-- A message handed to `websocket_service.send_message`/`send_error` by the
engine, by payload shape: `status`, `question` (with its progress round and
max_rounds), `document.update`, `ready_for_approval`, and `task.error`. -/
inductive Notification where
  | status (s msg : String)
  | question (q : Question) (round maxRounds : Nat)
  | documentUpdate (title content url : String) (version : Nat)
  | readyForApproval (msg : String)
  | taskError (error : String)

/-- Outcomes of the effectful calls a run makes, consumed in order: each
`evals` entry is one evaluate-node model call (`some (needs_more_info, gaps)`
if the call and extraction succeed, `none` for any exception), each
`questionGens` entry one question-generation call, each `plans` entry one
plan-generation attempt (`.ok (title, content, url)` covers the model call,
extraction, storage upload and signed-url steps; `.error e` is an exception
with message `e`), and `replies` the user's resume responses. -/
structure Oracle where
  evals : List (Option (Bool × List String))
  questionGens : List (Option (List Question))
  plans : List (Except String (String × String × String))
  replies : List String

/-- The graph nodes of `create_plan_graph`. -/
inductive Node where
  | evaluate : Node
  | generate_questions : Node
  | wait_for_response : Node
  | generate_plan : Node

/-- `PlanService.route_after_evaluation`: the question-round limit is checked
first; only then is `needs_more_info` consulted. -/
def route_after_evaluation (maxQ : Nat) (st : PlanState) : Node :=
  if maxQ ≤ st.questions_asked then .generate_plan
  else if st.needs_more_info then .generate_questions
  else .generate_plan

/-- Result of running one node body: proceed to the next node, pause at
`interrupt()`, reach `END`, or escape with an exception. -/
inductive StepResult where
  | next (n : Node) (st : PlanState)
  | interrupted (st : PlanState)
  | finished (st : PlanState)
  | failed (e : String) (st : PlanState)

/-- Convert a list of strings to a JSON array of strings. -/
def strListToJArr : List String → JArr
  | [] => .nil
  | s :: rest => .cons (.str s) (strListToJArr rest)

/-- The assistant transcript entry recorded on resume:
`"Questions: " + json.dumps([q['text'] for q in questions])`. -/
def questionsSerialized (qs : List Question) : String :=
  "Questions: " ++ dumps (.arr (strListToJArr (qs.map Question.text)))

/-- One node body of the LangGraph state machine, as a function of the state
and the oracle of call outcomes.  `wait_for_response` pauses at `interrupt()`
exactly when no resume reply is available; when the node is re-entered on
resume it re-runs from the top (LangGraph re-executes the interrupted node),
re-sending the question notifications before consuming the reply. -/
def runStep (maxQ : Nat) (st : PlanState) (o : Oracle) : Node → List Notification × StepResult × Oracle
  | .evaluate =>
    let notifs := [Notification.status "evaluating" "Analyzing your request..."]
    let o2 := { o with evals := o.evals.tail }
    match o.evals.headD none with
    | some (nmi, gaps) =>
      let st2 := { st with needs_more_info := nmi, gaps := gaps }
      (notifs, .next (route_after_evaluation maxQ st2) st2, o2)
    | none =>
      let st2 := { st with needs_more_info := false }
      (notifs, .next (route_after_evaluation maxQ st2) st2, o2)
  | .generate_questions =>
    let notifs := [Notification.status "generating_questions" "Preparing follow-up questions..."]
    let o2 := { o with questionGens := o.questionGens.tail }
    match o.questionGens.headD none with
    | some qs => (notifs, .next .wait_for_response { st with current_questions := some qs }, o2)
    | none =>
      (notifs, .next .wait_for_response
        { st with current_questions := some [], needs_more_info := false }, o2)
  | .wait_for_response =>
    match st.current_questions.getD [] with
    | [] => ([], .next .evaluate { st with needs_more_info := false }, o)
    | q :: qs =>
      let notifs := (q :: qs).map (fun x => Notification.question x (st.questions_asked + 1) maxQ)
      match o.replies with
      | [] => (notifs, .interrupted st, o)
      | r :: rs =>
        let st2 := { st with
          messages := st.messages ++
            [⟨.assistant, questionsSerialized (q :: qs)⟩, ⟨.user, r⟩],
          questions_asked := st.questions_asked + 1,
          current_questions := none }
        (notifs, .next .evaluate st2, { o with replies := rs })
  | .generate_plan =>
    let notifs := [Notification.status "generating" "Generating your plan document..."]
    let o2 := { o with plans := o.plans.tail }
    match o.plans.headD (.error "") with
    | .ok (title, content, url) =>
      (notifs ++ [Notification.documentUpdate title content url 1,
        Notification.readyForApproval
          "Your plan document is ready. Review and approve to continue."],
       .finished { st with plan_title := some title, plan_content := some content }, o2)
    | .error e =>
      (notifs ++ [Notification.taskError ("Failed to generate plan: " ++ e)], .failed e st, o2)

/-- Outcome of one `graph.ainvoke`: paused at an interrupt, completed, an
exception escaped, or the fuel bound was hit. -/
inductive RunResult where
  | interrupted (st : PlanState)
  | finished (st : PlanState)
  | failed (e : String) (st : PlanState)
  | fuelOut (st : PlanState)

/-- Run the graph from a node until `END`, an interrupt, or an exception,
collecting the notifications sent along the way.  `fuel` bounds the number of
node executions. -/
def runGraph (maxQ : Nat) : Nat → Node → PlanState → Oracle → List Notification × RunResult × Oracle
  | 0, _, st, o => ([], .fuelOut st, o)
  | f + 1, n, st, o =>
    match runStep maxQ st o n with
    | (ns, .next n2 st2, o2) =>
      let r := runGraph maxQ f n2 st2 o2
      (ns ++ r.1, r.2.1, r.2.2)
    | (ns, .interrupted s, o2) => (ns, .interrupted s, o2)
    | (ns, .finished s, o2) => (ns, .finished s, o2)
    | (ns, .failed e s, o2) => (ns, .failed e s, o2)

/-- The initial state built by `develop_plan`. -/
def initialState (sid prompt uid : String) : PlanState :=
  { messages := [⟨.user, prompt⟩], questions_asked := 0, needs_more_info := false,
    current_questions := none, plan_title := none, plan_content := none,
    session_id := sid, user_id := uid, gaps := [] }

/-- `PlanService.develop_plan`: invoke the graph from the entry point on the
initial state; if an exception escapes, send one more `task.error`
(`"Plan development failed: " + str(e)`) and re-raise. -/
def develop_plan_run (maxQ fuel : Nat) (sid prompt uid : String) (o : Oracle) :
    List Notification × RunResult × Oracle :=
  match runGraph maxQ fuel .evaluate (initialState sid prompt uid) o with
  | (ns, .failed e s, o2) =>
    (ns ++ [Notification.taskError ("Plan development failed: " ++ e)], .failed e s, o2)
  | r => r

/-- `PlanService.update_plan`: resume the graph at the interrupted
`wait_for_response` node; if an exception escapes, send one more `task.error`
(`"Plan update failed: " + str(e)`) and re-raise. -/
def update_plan_run (maxQ fuel : Nat) (st : PlanState) (o : Oracle) :
    List Notification × RunResult × Oracle :=
  match runGraph maxQ fuel .wait_for_response st o with
  | (ns, .failed e s, o2) =>
    (ns ++ [Notification.taskError ("Plan update failed: " ++ e)], .failed e s, o2)
  | r => r

/-- Is a notification a `task.error`? -/
def Notification.isTaskError : Notification → Bool
  | .taskError _ => true
  | _ => false

/-- Is a notification a `question` or a `status` with status `generating`? -/
def isQuestionOrGenerating : Notification → Bool
  | .question _ _ _ => true
  | .status s _ => s = "generating"
  | _ => false

/-- Is a notification a `document.update`? -/
def isDocUpdate : Notification → Bool
  | .documentUpdate _ _ _ _ => true
  | _ => false

/-- Is a notification a `ready_for_approval`? -/
def isReady : Notification → Bool
  | .readyForApproval _ => true
  | _ => false

/-- Is a notification a `status` with status `evaluating`? -/
def isEvaluatingStatus : Notification → Bool
  | .status s _ => s = "evaluating"
  | _ => false

/-- C1: the routing step after evaluation checks the round limit first, so
whenever `questions_asked >= MAX_FOLLOWUP_QUESTIONS` it routes to plan
generation regardless of `needs_more_info` (in particular it never selects
the question-generation node). -/
theorem c1_route_limit (maxQ : Nat) (st : PlanState) (h : maxQ ≤ st.questions_asked) :
    route_after_evaluation maxQ st = .generate_plan := by
  unfold route_after_evaluation
  rw [if_pos h]

/-- Witness for c1_route_limit at the limit with `needs_more_info = true`. -/
theorem c1_witness :
    (3 : Nat) ≤ 3 ∧
    route_after_evaluation 3
      ⟨[], 3, true, none, none, none, "sid", "uid", []⟩ = .generate_plan :=
  ⟨by decide, c1_route_limit 3 ⟨[], 3, true, none, none, none, "sid", "uid", []⟩ (by decide)⟩

/-- C3 (amended): when question-generation extraction fails, the engine
clears the question list and forces `needs_more_info := false`, but the next
node is `wait_for_response` (the graph edge is unconditional), whose empty
question list sends nothing and loops back to `evaluate` — it does NOT
transition directly to plan generation; the run passes through another
evaluation (see c3_counterexample). -/
theorem c3_question_failure (maxQ : Nat) (st : PlanState) (o : Oracle)
    (h : o.questionGens.headD none = none) :
    runStep maxQ st o .generate_questions
      = ([Notification.status "generating_questions" "Preparing follow-up questions..."],
         .next .wait_for_response
           { st with current_questions := some [], needs_more_info := false },
         { o with questionGens := o.questionGens.tail }) ∧
    runStep maxQ { st with current_questions := some [], needs_more_info := false }
        { o with questionGens := o.questionGens.tail } .wait_for_response
      = ([], .next .evaluate
           { st with current_questions := some [], needs_more_info := false },
         { o with questionGens := o.questionGens.tail }) := by
  constructor
  · unfold runStep
    rw [h]
  · unfold runStep
    rfl

/-- Witness for c3_question_failure on the initial state with one failing
question-generation call. -/
theorem c3_witness :
    (⟨[], [none], [], []⟩ : Oracle).questionGens.headD none = none ∧
    runStep 3 (initialState "sid" "p" "uid") ⟨[], [none], [], []⟩ .generate_questions
      = ([Notification.status "generating_questions" "Preparing follow-up questions..."],
         .next .wait_for_response
           { initialState "sid" "p" "uid" with
             current_questions := some [], needs_more_info := false },
         ⟨[], [], [], []⟩) ∧
    runStep 3 { initialState "sid" "p" "uid" with
        current_questions := some [], needs_more_info := false }
        ⟨[], [], [], []⟩ .wait_for_response
      = ([], .next .evaluate
           { initialState "sid" "p" "uid" with
             current_questions := some [], needs_more_info := false },
         ⟨[], [], [], []⟩) := by
  refine ⟨rfl, ?_⟩
  exact c3_question_failure 3 (initialState "sid" "p" "uid") ⟨[], [none], [], []⟩ rfl

/-- Counterexample to C3 as stated: after a question-generation failure the
run re-enters `evaluate` (two `status(evaluating)` notifications in one run)
rather than transitioning straight to plan generation. -/
theorem c3_counterexample :
    develop_plan_run 3 6 "sid" "p" "uid" ⟨[some (true, ["g"]), some (false, [])], [none],
        [.ok ("T", "C", "U")], []⟩
      = ([Notification.status "evaluating" "Analyzing your request...",
          Notification.status "generating_questions" "Preparing follow-up questions...",
          Notification.status "evaluating" "Analyzing your request...",
          Notification.status "generating" "Generating your plan document...",
          Notification.documentUpdate "T" "C" "U" 1,
          Notification.readyForApproval
            "Your plan document is ready. Review and approve to continue."],
         .finished ⟨[⟨.user, "p"⟩], 0, false, some [], some "T", some "C", "sid", "uid", []⟩,
         ⟨[], [], [], []⟩) ∧
    ([Notification.status "evaluating" "Analyzing your request...",
      Notification.status "generating_questions" "Preparing follow-up questions...",
      Notification.status "evaluating" "Analyzing your request...",
      Notification.status "generating" "Generating your plan document...",
      Notification.documentUpdate "T" "C" "U" 1,
      Notification.readyForApproval
        "Your plan document is ready. Review and approve to continue."].countP
        isEvaluatingStatus) = 2 := by
  constructor
  · rfl
  · rfl

/-- C7: resuming a session suspended with a non-empty question list and
reply `r` extends the transcript by exactly two messages — an assistant
message with the serialized question texts, then a user message with `r` —
increments `questions_asked` by exactly 1 and clears `current_questions`. -/
theorem c7_resume (maxQ : Nat) (st : PlanState) (o : Oracle) (q : Question)
    (qs : List Question) (r : String) (rs : List String)
    (hq : st.current_questions = some (q :: qs))
    (hr : o.replies = r :: rs) :
    runStep maxQ st o .wait_for_response
      = ((q :: qs).map (fun x => Notification.question x (st.questions_asked + 1) maxQ),
         .next .evaluate
           { st with
             messages := st.messages ++
               [⟨.assistant, questionsSerialized (q :: qs)⟩, ⟨.user, r⟩],
             questions_asked := st.questions_asked + 1,
             current_questions := none },
         { o with replies := rs }) := by
  unfold runStep
  rw [hq, hr]
  rfl

/-- Witness for c7_resume with two questions and a concrete reply; the
serialized assistant content is computed explicitly. -/
theorem c7_witness :
    (⟨[], 1, true, some [⟨"Q1"⟩, ⟨"Q2"⟩], none, none, "sid", "uid", []⟩
        : PlanState).current_questions = some [⟨"Q1"⟩, ⟨"Q2"⟩] ∧
    (⟨[], [], [], ["my reply"]⟩ : Oracle).replies = ["my reply"] ∧
    runStep 3 ⟨[], 1, true, some [⟨"Q1"⟩, ⟨"Q2"⟩], none, none, "sid", "uid", []⟩
        ⟨[], [], [], ["my reply"]⟩ .wait_for_response
      = ([Notification.question ⟨"Q1"⟩ 2 3, Notification.question ⟨"Q2"⟩ 2 3],
         .next .evaluate
           ⟨[⟨.assistant, "Questions: [\"Q1\", \"Q2\"]"⟩, ⟨.user, "my reply"⟩],
            2, true, none, none, none, "sid", "uid", []⟩,
         ⟨[], [], [], []⟩) := by
  refine ⟨rfl, rfl, ?_⟩
  exact c7_resume 3 ⟨[], 1, true, some [⟨"Q1"⟩, ⟨"Q2"⟩], none, none, "sid", "uid", []⟩
    ⟨[], [], [], ["my reply"]⟩ ⟨"Q1"⟩ [⟨"Q2"⟩] "my reply" [] rfl rfl

/-- One node emits a `task.error` exactly when it fails (and then exactly
one). -/
theorem runStep_taskError_count (maxQ : Nat) (st : PlanState) (o : Oracle) (n : Node) :
    ((runStep maxQ st o n).1.countP Notification.isTaskError)
      = (match (runStep maxQ st o n).2.1 with
         | .failed _ _ => 1
         | _ => 0) := by
  cases n
  · unfold runStep
    cases h : o.evals.headD none with
    | none => simp [List.countP, List.countP.go, Notification.isTaskError]
    | some p =>
      cases p
      simp [List.countP, List.countP.go, Notification.isTaskError]
  · unfold runStep
    cases h : o.questionGens.headD none with
    | none => simp [List.countP, List.countP.go, Notification.isTaskError]
    | some qs => simp [List.countP, List.countP.go, Notification.isTaskError]
  · unfold runStep
    cases hq : st.current_questions.getD [] with
    | nil => simp [List.countP, List.countP.go, Notification.isTaskError]
    | cons q qs =>
      cases hr : o.replies with
      | nil =>
        show List.countP Notification.isTaskError
          (List.map (fun x => Notification.question x (st.questions_asked + 1) maxQ)
            (q :: qs)) = 0
        rw [List.countP_eq_zero]
        intro a ha
        simp only [List.mem_map] at ha
        obtain ⟨y, _, hy⟩ := ha
        rw [← hy]
        simp [Notification.isTaskError]
      | cons r rs =>
        show List.countP Notification.isTaskError
          (List.map (fun x => Notification.question x (st.questions_asked + 1) maxQ)
            (q :: qs)) = 0
        rw [List.countP_eq_zero]
        intro a ha
        simp only [List.mem_map] at ha
        obtain ⟨y, _, hy⟩ := ha
        rw [← hy]
        simp [Notification.isTaskError]
  · unfold runStep
    cases h : o.plans.headD (.error "") with
    | ok p =>
      obtain ⟨t, c, u⟩ := p
      simp [List.countP, List.countP.go, Notification.isTaskError]
    | error e => simp [List.countP, List.countP.go, Notification.isTaskError]

/-- A graph run emits exactly one `task.error` when it fails and none
otherwise. -/
theorem runGraph_taskError_count (maxQ : Nat) : ∀ (f : Nat) (n : Node) (st : PlanState)
    (o : Oracle),
    ((runGraph maxQ f n st o).1.countP Notification.isTaskError)
      = (match (runGraph maxQ f n st o).2.1 with
         | .failed _ _ => 1
         | _ => 0) := by
  intro f
  induction f with
  | zero => intro n st o; rfl
  | succ f ih =>
    intro n st o
    have hstep := runStep_taskError_count maxQ st o n
    rcases hs : runStep maxQ st o n with ⟨ns, sr, o2⟩
    rw [hs] at hstep
    cases sr with
    | next n2 st2 =>
      rw [runGraph, hs]
      simp only [List.countP_append]
      rw [hstep]
      simpa using ih n2 st2 o2
    | interrupted s => rw [runGraph, hs]; exact hstep
    | finished s => rw [runGraph, hs]; exact hstep
    | failed e s => rw [runGraph, hs]; exact hstep

/-- C2 (amended): the original claim — exactly one `task.error` per fatal
condition — is false: the failing node sends one (`"Failed to generate
plan: ..."`) and the catch block of `develop_plan` (resp. `update_plan` on
the resume path) sends a second (`"Plan development failed: ..."` resp.
`"Plan update failed: ..."`) before re-raising (see c2_counterexample).
Amended: every failed plan-development run AND every failed resumed
(plan-update) run sends exactly TWO `task.error` notifications. -/
theorem c2_failed_run_two_task_errors (maxQ fuel : Nat) (sid prompt uid : String)
    (st : PlanState) (o : Oracle) (ns : List Notification) (e : String)
    (s : PlanState) (o2 : Oracle) :
    (develop_plan_run maxQ fuel sid prompt uid o = (ns, .failed e s, o2) →
      ns.countP Notification.isTaskError = 2) ∧
    (update_plan_run maxQ fuel st o = (ns, .failed e s, o2) →
      ns.countP Notification.isTaskError = 2) := by
  constructor
  · intro h
    unfold develop_plan_run at h
    have hcnt := runGraph_taskError_count maxQ fuel .evaluate (initialState sid prompt uid) o
    rcases hg : runGraph maxQ fuel .evaluate (initialState sid prompt uid) o with ⟨ns1, r, o3⟩
    rw [hg] at h hcnt
    cases r with
    | interrupted s2 => exact absurd h (by simp)
    | finished s2 => exact absurd h (by simp)
    | fuelOut s2 => exact absurd h (by simp)
    | failed e2 s2 =>
      simp only [Prod.mk.injEq] at h
      obtain ⟨hns, _, _⟩ := h
      rw [← hns, List.countP_append, hcnt]
      rfl
  · intro h
    unfold update_plan_run at h
    have hcnt := runGraph_taskError_count maxQ fuel .wait_for_response st o
    rcases hg : runGraph maxQ fuel .wait_for_response st o with ⟨ns1, r, o3⟩
    rw [hg] at h hcnt
    cases r with
    | interrupted s2 => exact absurd h (by simp)
    | finished s2 => exact absurd h (by simp)
    | fuelOut s2 => exact absurd h (by simp)
    | failed e2 s2 =>
      simp only [Prod.mk.injEq] at h
      obtain ⟨hns, _, _⟩ := h
      rw [← hns, List.countP_append, hcnt]
      rfl

/-- Counterexample to C2 as stated: a concrete failing run whose trace
contains two `task.error` notifications, not one. -/
theorem c2_counterexample :
    develop_plan_run 3 5 "sid" "p" "uid" ⟨[some (false, [])], [], [.error "boom"], []⟩
      = ([Notification.status "evaluating" "Analyzing your request...",
          Notification.status "generating" "Generating your plan document...",
          Notification.taskError "Failed to generate plan: boom",
          Notification.taskError "Plan development failed: boom"],
         .failed "boom" ⟨[⟨.user, "p"⟩], 0, false, none, none, none, "sid", "uid", []⟩,
         ⟨[], [], [], []⟩) ∧
    ([Notification.status "evaluating" "Analyzing your request...",
      Notification.status "generating" "Generating your plan document...",
      Notification.taskError "Failed to generate plan: boom",
      Notification.taskError "Plan development failed: boom"].countP
        Notification.isTaskError) = 2 ∧ (2 : Nat) ≠ 1 := by
  refine ⟨rfl, rfl, by decide⟩

/-- Witness for c2_failed_run_two_task_errors on a concrete failing
development run and a concrete failing resumed run. -/
theorem c2_witness :
    develop_plan_run 3 5 "s2" "p2" "u2" ⟨[none], [], [.error "oops"], []⟩
      = ([Notification.status "evaluating" "Analyzing your request...",
          Notification.status "generating" "Generating your plan document...",
          Notification.taskError "Failed to generate plan: oops",
          Notification.taskError "Plan development failed: oops"],
         .failed "oops" ⟨[⟨.user, "p2"⟩], 0, false, none, none, none, "s2", "u2", []⟩,
         ⟨[], [], [], []⟩) ∧
    ([Notification.status "evaluating" "Analyzing your request...",
      Notification.status "generating" "Generating your plan document...",
      Notification.taskError "Failed to generate plan: oops",
      Notification.taskError "Plan development failed: oops"].countP
        Notification.isTaskError) = 2 ∧
    update_plan_run 3 5 ⟨[⟨.user, "p3"⟩], 0, false, none, none, none, "s3", "u3", []⟩
        ⟨[none], [], [.error "ugh"], []⟩
      = ([Notification.status "evaluating" "Analyzing your request...",
          Notification.status "generating" "Generating your plan document...",
          Notification.taskError "Failed to generate plan: ugh",
          Notification.taskError "Plan update failed: ugh"],
         .failed "ugh" ⟨[⟨.user, "p3"⟩], 0, false, none, none, none, "s3", "u3", []⟩,
         ⟨[], [], [], []⟩) ∧
    ([Notification.status "evaluating" "Analyzing your request...",
      Notification.status "generating" "Generating your plan document...",
      Notification.taskError "Failed to generate plan: ugh",
      Notification.taskError "Plan update failed: ugh"].countP
        Notification.isTaskError) = 2 := by
  refine ⟨rfl, ?_, rfl, ?_⟩
  · exact (c2_failed_run_two_task_errors 3 5 "s2" "p2" "u2"
      ⟨[⟨.user, "p3"⟩], 0, false, none, none, none, "s3", "u3", []⟩
      ⟨[none], [], [.error "oops"], []⟩ _ "oops" _ _).1 rfl
  · exact (c2_failed_run_two_task_errors 3 5 "s3" "p3" "u3"
      ⟨[⟨.user, "p3"⟩], 0, false, none, none, none, "s3", "u3", []⟩
      ⟨[none], [], [.error "ugh"], []⟩ _ "ugh" _ _).2 rfl

/-- Every `ready_for_approval` in the list is preceded by a
`document.update`. -/
def ReadyAfterDoc (ns : List Notification) : Prop :=
  ∀ j m, ns.get? j = some (.readyForApproval m) →
    ∃ i, i < j ∧ ∃ x, ns.get? i = some x ∧ isDocUpdate x = true

theorem readyAfterDoc_of_no_ready {ns : List Notification}
    (h : ∀ x ∈ ns, isReady x = false) : ReadyAfterDoc ns := by
  intro j m hj
  have hmem : Notification.readyForApproval m ∈ ns := List.get?_mem hj
  have := h _ hmem
  simp [isReady] at this

theorem readyAfterDoc_append {xs ys : List Notification}
    (hx : ReadyAfterDoc xs) (hy : ReadyAfterDoc ys) : ReadyAfterDoc (xs ++ ys) := by
  intro j m hj
  rcases Nat.lt_or_ge j xs.length with hlt | hge
  · rw [List.get?_append hlt] at hj
    obtain ⟨i, hij, x, hix, hdoc⟩ := hx j m hj
    exact ⟨i, hij, x, by rw [List.get?_append (Nat.lt_trans hij hlt)]; exact hix, hdoc⟩
  · rw [List.get?_append_right hge] at hj
    obtain ⟨i, hij, x, hix, hdoc⟩ := hy (j - xs.length) m hj
    refine ⟨xs.length + i, by omega, x, ?_, hdoc⟩
    rw [List.get?_append_right (by omega)]
    have : xs.length + i - xs.length = i := by omega
    rw [this]
    exact hix

theorem runStep_readyAfterDoc (maxQ : Nat) (st : PlanState) (o : Oracle) (n : Node) :
    ReadyAfterDoc (runStep maxQ st o n).1 := by
  cases n
  · unfold runStep
    cases h : o.evals.headD none with
    | none => exact readyAfterDoc_of_no_ready (by intro x hx; simp at hx; rw [hx]; rfl)
    | some p =>
      cases p
      exact readyAfterDoc_of_no_ready (by intro x hx; simp at hx; rw [hx]; rfl)
  · unfold runStep
    cases h : o.questionGens.headD none with
    | none => exact readyAfterDoc_of_no_ready (by intro x hx; simp at hx; rw [hx]; rfl)
    | some qs => exact readyAfterDoc_of_no_ready (by intro x hx; simp at hx; rw [hx]; rfl)
  · unfold runStep
    cases hq : st.current_questions.getD [] with
    | nil => exact readyAfterDoc_of_no_ready (by intro x hx; simp at hx)
    | cons q qs =>
      cases hr : o.replies with
      | nil =>
        refine readyAfterDoc_of_no_ready ?_
        intro x hx
        simp only [List.mem_map] at hx
        obtain ⟨y, _, hy⟩ := hx
        rw [← hy]
        rfl
      | cons r rs =>
        refine readyAfterDoc_of_no_ready ?_
        intro x hx
        simp only [List.mem_map] at hx
        obtain ⟨y, _, hy⟩ := hx
        rw [← hy]
        rfl
  · unfold runStep
    cases h : o.plans.headD (.error "") with
    | ok p =>
      obtain ⟨t, c, u⟩ := p
      intro j m hj
      match j with
      | 0 => exact absurd hj (by simp)
      | 1 => exact absurd hj (by simp)
      | 2 => exact ⟨1, by omega, Notification.documentUpdate t c u 1, rfl, rfl⟩
      | k + 3 => exact absurd hj (by simp)
    | error e => exact readyAfterDoc_of_no_ready (by intro x hx; simp at hx; rcases hx with hx | hx <;> rw [hx] <;> rfl)

theorem runGraph_readyAfterDoc (maxQ : Nat) : ∀ (f : Nat) (n : Node) (st : PlanState)
    (o : Oracle), ReadyAfterDoc (runGraph maxQ f n st o).1 := by
  intro f
  induction f with
  | zero => intro n st o j m hj; exact absurd hj (by simp [runGraph])
  | succ f ih =>
    intro n st o
    have hstep := runStep_readyAfterDoc maxQ st o n
    rcases hs : runStep maxQ st o n with ⟨ns, sr, o2⟩
    rw [hs] at hstep
    cases sr with
    | next n2 st2 =>
      rw [runGraph, hs]
      exact readyAfterDoc_append hstep (ih n2 st2 o2)
    | interrupted s => rw [runGraph, hs]; exact hstep
    | finished s => rw [runGraph, hs]; exact hstep
    | failed e s => rw [runGraph, hs]; exact hstep

theorem runStep_evaluate_shape (maxQ : Nat) (st : PlanState) (o : Oracle) :
    ∃ st2 o2, runStep maxQ st o .evaluate
      = ([Notification.status "evaluating" "Analyzing your request..."],
         .next (route_after_evaluation maxQ st2) st2, o2) := by
  unfold runStep
  cases h : o.evals.headD none with
  | none => exact ⟨_, _, rfl⟩
  | some p =>
    cases p
    exact ⟨_, _, rfl⟩

/-- C8: in a successful run, a `status(evaluating)` notification precedes
every `question` and every `status(generating)` notification, and every
`ready_for_approval` is preceded by a `document.update`. -/
theorem c8_notification_order (maxQ fuel : Nat) (sid prompt uid : String) (o : Oracle)
    (ns : List Notification) (s : PlanState) (o2 : Oracle)
    (h : develop_plan_run maxQ fuel sid prompt uid o = (ns, .finished s, o2)) :
    (∀ j x, ns.get? j = some x → isQuestionOrGenerating x = true →
       ∃ i, i < j ∧ ∃ m, ns.get? i = some (Notification.status "evaluating" m)) ∧
    ReadyAfterDoc ns := by
  unfold develop_plan_run at h
  rcases hg : runGraph maxQ fuel .evaluate (initialState sid prompt uid) o with ⟨ns1, r, o3⟩
  rw [hg] at h
  cases r with
  | interrupted s2 =>
    simp only [Prod.mk.injEq] at h
    exact absurd h.2.1 (by simp)
  | fuelOut s2 =>
    simp only [Prod.mk.injEq] at h
    exact absurd h.2.1 (by simp)
  | failed e2 s2 => exact absurd h (by simp)
  | finished s2 =>
    simp only [Prod.mk.injEq] at h
    obtain ⟨hns, _, _⟩ := h
    subst hns
    constructor
    · cases fuel with
      | zero => exact absurd hg (by simp [runGraph])
      | succ f =>
        obtain ⟨stE, oE, hE⟩ :=
          runStep_evaluate_shape maxQ (initialState sid prompt uid) o
        rw [runGraph, hE] at hg
        dsimp only at hg
        rcases hg2 : runGraph maxQ f (route_after_evaluation maxQ stE) stE oE
          with ⟨ns2, r2, o4⟩
        rw [hg2] at hg
        dsimp only [List.singleton_append] at hg
        simp only [Prod.mk.injEq] at hg
        obtain ⟨hns1, _, _⟩ := hg
        intro j x hj hqg
        rw [← hns1] at hj ⊢
        match j with
        | 0 =>
          rw [show (Notification.status "evaluating" "Analyzing your request..."
              :: ns2).get? 0 = some (Notification.status "evaluating"
              "Analyzing your request...") from rfl] at hj
          rw [Option.some_inj] at hj
          rw [← hj] at hqg
          exact absurd hqg (by simp [isQuestionOrGenerating])
        | k + 1 =>
          exact ⟨0, by omega, "Analyzing your request...", rfl⟩
    · have := runGraph_readyAfterDoc maxQ fuel .evaluate (initialState sid prompt uid) o
      rw [hg] at this
      exact this

/-- Witness for c8_notification_order on a concrete successful run. -/
theorem c8_witness :
    develop_plan_run 0 3 "sid" "p" "uid" ⟨[some (false, [])], [], [.ok ("T", "C", "U")], []⟩
      = ([Notification.status "evaluating" "Analyzing your request...",
          Notification.status "generating" "Generating your plan document...",
          Notification.documentUpdate "T" "C" "U" 1,
          Notification.readyForApproval
            "Your plan document is ready. Review and approve to continue."],
         .finished ⟨[⟨.user, "p"⟩], 0, false, none, some "T", some "C", "sid", "uid", []⟩,
         ⟨[], [], [], []⟩) ∧
    (∃ i, i < 1 ∧ ∃ m,
      ([Notification.status "evaluating" "Analyzing your request...",
        Notification.status "generating" "Generating your plan document...",
        Notification.documentUpdate "T" "C" "U" 1,
        Notification.readyForApproval
          "Your plan document is ready. Review and approve to continue."].get? i)
        = some (Notification.status "evaluating" m)) ∧
    (∃ i, i < 3 ∧ ∃ x,
      ([Notification.status "evaluating" "Analyzing your request...",
        Notification.status "generating" "Generating your plan document...",
        Notification.documentUpdate "T" "C" "U" 1,
        Notification.readyForApproval
          "Your plan document is ready. Review and approve to continue."].get? i)
        = some x ∧ isDocUpdate x = true) := by
  have h : develop_plan_run 0 3 "sid" "p" "uid"
      ⟨[some (false, [])], [], [.ok ("T", "C", "U")], []⟩
      = ([Notification.status "evaluating" "Analyzing your request...",
          Notification.status "generating" "Generating your plan document...",
          Notification.documentUpdate "T" "C" "U" 1,
          Notification.readyForApproval
            "Your plan document is ready. Review and approve to continue."],
         .finished ⟨[⟨.user, "p"⟩], 0, false, none, some "T", some "C", "sid", "uid", []⟩,
         ⟨[], [], [], []⟩) := rfl
  refine ⟨h, ?_, ?_⟩
  · exact (c8_notification_order 0 3 "sid" "p" "uid" _ _ _ _ h).1 1
      (Notification.status "generating" "Generating your plan document...") rfl (by decide)
  · exact (c8_notification_order 0 3 "sid" "p" "uid" _ _ _ _ h).2 3
      "Your plan document is ready. Review and approve to continue." rfl

/-- Lookup in a Python dict modelled as an association list in insertion
order. -/
def dictGet : List (String × Json) → String → Option Json
  | [], _ => none
  | (k, v) :: rest, key => if k = key then some v else dictGet rest key

/-- Python's `key in dict`. -/
def dictContains (m : List (String × Json)) (key : String) : Bool :=
  (dictGet m key).isSome

/-- Python's `dict[key] = v`: update in place if the key exists (keeping its
position), append otherwise. -/
def dictSet : List (String × Json) → String → Json → List (String × Json)
  | [], key, v => [(key, v)]
  | (k, w) :: rest, key, v =>
    if k = key then (k, v) :: rest else (k, w) :: dictSet rest key v

/-- `WebsocketService.send_message`.  `conns` is the key set of
`active_connections`, `msg` the caller's message dict, `now` the
`datetime.now().isoformat()` value, and `writeFails` whether
`websocket.send_text` raises.  Returns the registry afterwards, the message
dict afterwards (the Python code mutates the caller's dict in place), and
the delivered payload (`none` when nothing was sent or the write failed —
the exception is swallowed either way). -/
def send_message (conns : List String) (sid : String) (msg : List (String × Json))
    (now : String) (writeFails : Bool) :
    List String × List (String × Json) × Option (List (String × Json)) :=
  if sid ∈ conns then
    let msg1 := dictSet msg "timestamp" (.str now)
    let msg2 := if dictContains msg1 "session_id" then msg1
      else dictSet msg1 "session_id" (.str sid)
    if writeFails then (conns.erase sid, msg2, none)
    else (conns, msg2, some msg2)
  else (conns, msg, none)

theorem dictGet_dictSet_self (m : List (String × Json)) (k : String) (v : Json) :
    dictGet (dictSet m k v) k = some v := by
  induction m with
  | nil => simp [dictSet, dictGet]
  | cons p rest ih =>
    obtain ⟨k2, w⟩ := p
    by_cases h : k2 = k
    · simp [dictSet, dictGet, h]
    · simp [dictSet, dictGet, h, ih]

theorem dictGet_dictSet_other (m : List (String × Json)) (k : String) (v : Json)
    (k2 : String) (h : k2 ≠ k) :
    dictGet (dictSet m k v) k2 = dictGet m k2 := by
  induction m with
  | nil =>
    simp only [dictSet, dictGet]
    rw [if_neg (fun he => h he.symm)]
  | cons p rest ih =>
    obtain ⟨k3, w⟩ := p
    by_cases h3 : k3 = k
    · subst h3
      have hne : ¬ k3 = k2 := fun he => h he.symm
      simp [dictSet, dictGet, hne]
    · simp only [dictSet, if_neg h3, dictGet]
      by_cases h4 : k3 = k2
      · simp [h4]
      · simp [h4, ih]

/-- C9: sending to an unbound session id is a silent no-op (registry and
message unchanged, nothing delivered), and when the channel write fails the
binding is removed from the registry and the failure is swallowed (the
function returns normally with nothing delivered). -/
theorem c9_send_best_effort (conns : List String) (sid : String)
    (msg : List (String × Json)) (now : String) (wf : Bool) (hnd : conns.Nodup) :
    (sid ∉ conns → send_message conns sid msg now wf = (conns, msg, none)) ∧
    (sid ∈ conns → wf = true →
      (send_message conns sid msg now wf).1 = conns.erase sid ∧
      sid ∉ (send_message conns sid msg now wf).1 ∧
      (send_message conns sid msg now wf).2.2 = none) := by
  constructor
  · intro hmem
    unfold send_message
    rw [if_neg hmem]
  · intro hmem hwf
    subst hwf
    have hsm : send_message conns sid msg now true
        = (conns.erase sid,
           (if dictContains (dictSet msg "timestamp" (.str now)) "session_id"
             then dictSet msg "timestamp" (.str now)
             else dictSet (dictSet msg "timestamp" (.str now)) "session_id" (.str sid)),
           none) := by
      unfold send_message
      rw [if_pos hmem]
      rfl
    refine ⟨by rw [hsm], ?_, by rw [hsm]⟩
    rw [hsm]
    intro habs
    dsimp only at habs
    rw [List.Nodup.mem_erase_iff hnd] at habs
    exact habs.1 rfl

/-- Witness for c9_send_best_effort: an unbound send and a failing bound
send on a concrete two-entry registry. -/
theorem c9_witness :
    (("c" : String) ∉ (["a", "b"] : List String)) ∧
    send_message ["a", "b"] "c" [("k", Json.null)] "t" false
      = (["a", "b"], [("k", Json.null)], none) ∧
    (("a" : String) ∈ (["a", "b"] : List String)) ∧
    (send_message ["a", "b"] "a" [("k", Json.null)] "t" true).1 = (["a", "b"] : List String).erase "a" ∧
    ("a" : String) ∉ (send_message ["a", "b"] "a" [("k", Json.null)] "t" true).1 ∧
    (send_message ["a", "b"] "a" [("k", Json.null)] "t" true).2.2 = none := by
  refine ⟨by decide, ?_, by decide, ?_, ?_, ?_⟩
  · exact (c9_send_best_effort ["a", "b"] "c" [("k", Json.null)] "t" false (by decide)).1
      (by decide)
  all_goals {
    have h := (c9_send_best_effort ["a", "b"] "a" [("k", Json.null)] "t" true (by decide)).2
      (by decide) rfl
    first
    | exact h.1
    | exact h.2.1
    | exact h.2.2
  }

/-- C10 (amended): the original claim — send always overwrites the message's
timestamp — is false when the session id is unbound, since then the message
is untouched and a stale timestamp survives (see c10_counterexample).
Amended: when the session id IS bound, the timestamp entry is overwritten
with the current time, a caller-supplied session_id entry is preserved and
only added when absent, and every other entry is unchanged. -/
theorem c10_send_mutation (conns : List String) (sid : String)
    (msg : List (String × Json)) (now : String) (wf : Bool) (hb : sid ∈ conns) :
    dictGet (send_message conns sid msg now wf).2.1 "timestamp" = some (.str now) ∧
    (dictContains msg "session_id" = true →
      dictGet (send_message conns sid msg now wf).2.1 "session_id"
        = dictGet msg "session_id") ∧
    (dictContains msg "session_id" = false →
      dictGet (send_message conns sid msg now wf).2.1 "session_id" = some (.str sid)) ∧
    (∀ k, k ≠ "timestamp" → k ≠ "session_id" →
      dictGet (send_message conns sid msg now wf).2.1 k = dictGet msg k) := by
  have hmsg : (send_message conns sid msg now wf).2.1
      = (if dictContains (dictSet msg "timestamp" (.str now)) "session_id"
          then dictSet msg "timestamp" (.str now)
          else dictSet (dictSet msg "timestamp" (.str now)) "session_id" (.str sid)) := by
    unfold send_message
    rw [if_pos hb]
    cases wf <;> rfl
  have hcont : dictContains (dictSet msg "timestamp" (.str now)) "session_id"
      = dictContains msg "session_id" := by
    unfold dictContains
    rw [dictGet_dictSet_other msg "timestamp" (.str now) "session_id" (by decide)]
  rw [hmsg, hcont]
  refine ⟨?_, ?_, ?_, ?_⟩
  · cases hc : dictContains msg "session_id" with
    | true =>
      show dictGet (dictSet msg "timestamp" (.str now)) "timestamp" = some (.str now)
      exact dictGet_dictSet_self msg "timestamp" (.str now)
    | false =>
      show dictGet (dictSet (dictSet msg "timestamp" (.str now)) "session_id" (.str sid))
        "timestamp" = some (.str now)
      rw [dictGet_dictSet_other _ "session_id" (.str sid) "timestamp" (by decide)]
      exact dictGet_dictSet_self msg "timestamp" (.str now)
  · intro hc
    rw [if_pos hc]
    exact dictGet_dictSet_other msg "timestamp" (.str now) "session_id" (by decide)
  · intro hc
    rw [if_neg (by rw [hc]; exact Bool.false_ne_true)]
    exact dictGet_dictSet_self (dictSet msg "timestamp" (.str now)) "session_id" (.str sid)
  · intro k hkt hks
    cases hc : dictContains msg "session_id" with
    | true =>
      show dictGet (dictSet msg "timestamp" (.str now)) k = dictGet msg k
      exact dictGet_dictSet_other msg "timestamp" (.str now) k hkt
    | false =>
      show dictGet (dictSet (dictSet msg "timestamp" (.str now)) "session_id" (.str sid)) k
        = dictGet msg k
      rw [dictGet_dictSet_other _ "session_id" (.str sid) k hks]
      exact dictGet_dictSet_other msg "timestamp" (.str now) k hkt

/-- Counterexample to C10 as stated: with no bound channel the stale
timestamp is NOT overwritten. -/
theorem c10_counterexample :
    (send_message [] "sid" [("timestamp", Json.str "stale")] "now" false).2.1
      = [("timestamp", Json.str "stale")] ∧
    Json.str "stale" ≠ Json.str "now" := by
  refine ⟨rfl, ?_⟩
  intro h
  injection h with h2
  exact absurd h2 (by decide)

/-- Witness for c10_send_mutation on a concrete bound send with a stale
timestamp and no session_id entry. -/
theorem c10_witness :
    (("s" : String) ∈ (["s"] : List String)) ∧
    dictGet (send_message ["s"] "s" [("a", Json.num 7), ("timestamp", Json.str "old")]
        "now" false).2.1 "timestamp" = some (.str "now") ∧
    (dictContains [("a", Json.num 7), ("timestamp", Json.str "old")] "session_id" = false →
      dictGet (send_message ["s"] "s" [("a", Json.num 7), ("timestamp", Json.str "old")]
          "now" false).2.1 "session_id" = some (.str "s")) ∧
    dictGet (send_message ["s"] "s" [("a", Json.num 7), ("timestamp", Json.str "old")]
        "now" false).2.1 "a" = dictGet [("a", Json.num 7), ("timestamp", Json.str "old")] "a" := by
  have h := c10_send_mutation ["s"] "s" [("a", Json.num 7), ("timestamp", Json.str "old")]
    "now" false (by decide)
  exact ⟨by decide, h.1, h.2.2.1, h.2.2.2 "a" (by decide) (by decide)⟩
